import Mathlib

/-!
Verification development for the BIOS table engine (`src/fw/biostables.c`):
signature/checksum validation, table relocation (PIR, MPTable, ACPI RSDP,
SMBIOS 2.1/3.0), ACPI table-chain traversal, the SMBIOS structure iterator,
the SMBIOS table builder, UUID display, and the ACPI reset register.

Firmware memory is modelled as a total function `Nat → Nat`; every read goes
through `rd8`, which truncates to a byte, so the model is insensitive to
values ≥ 256 stored in the map.  Addresses are natural numbers; a null
pointer is address 0, matching the C code's null checks.
-/

namespace BiosTables

/-! ## Byte memory -/

/-- Read one byte.  All C `u8` loads go through this. -/
def rd8 (m : Nat → Nat) (a : Nat) : Nat := m a % 256

/-- Little-endian 16-bit load (`u16`). -/
def rd16 (m : Nat → Nat) (a : Nat) : Nat := rd8 m a + 256 * rd8 m (a + 1)

/-- Little-endian 32-bit load (`u32`). -/
def rd32 (m : Nat → Nat) (a : Nat) : Nat :=
  rd8 m a + 2 ^ 8 * rd8 m (a + 1) + 2 ^ 16 * rd8 m (a + 2) + 2 ^ 24 * rd8 m (a + 3)

/-- Little-endian 64-bit load (`u64`). -/
def rd64 (m : Nat → Nat) (a : Nat) : Nat := rd32 m a + 2 ^ 32 * rd32 m (a + 4)

/-- Write one byte (stores are truncated to a byte, as in C). -/
def wr8 (m : Nat → Nat) (a v : Nat) : Nat → Nat :=
  fun x => if x = a then v % 256 else m x

/-- Little-endian 16-bit store. -/
def wr16 (m : Nat → Nat) (a v : Nat) : Nat → Nat :=
  wr8 (wr8 m a v) (a + 1) (v / 2 ^ 8)

/-- Little-endian 32-bit store. -/
def wr32 (m : Nat → Nat) (a v : Nat) : Nat → Nat :=
  wr8 (wr8 (wr8 (wr8 m a v) (a + 1) (v / 2 ^ 8)) (a + 2) (v / 2 ^ 16)) (a + 3) (v / 2 ^ 24)

/-- Store a list of bytes at consecutive addresses. -/
def wrBytes : (Nat → Nat) → Nat → List Nat → (Nat → Nat)
  | m, _, [] => m
  | m, a, b :: l => wrBytes (wr8 m a b) (a + 1) l

/-- `memcpy(dst, src, n)`, byte by byte, front to back. -/
def memcpyM : (Nat → Nat) → Nat → Nat → Nat → (Nat → Nat)
  | m, _, _, 0 => m
  | m, d, s, n + 1 => memcpyM (wr8 m d (m s)) (d + 1) (s + 1) n

/-- Read back `n` consecutive bytes as a list. -/
def readBytes (m : Nat → Nat) (a n : Nat) : List Nat :=
  (List.range n).map (fun i => rd8 m (a + i))

/-- Modelled from the spec: `checksum(buf, len)` lives in `string.c`, outside
this repository; the spec's validator contract is the byte sum over `len`
bytes reduced mod 256 (zero means valid). -/
def checksum (m : Nat → Nat) (p : Nat) : Nat → Nat
  | 0 => 0
  | n + 1 => (checksum m p n + rd8 m (p + n)) % 256

/-! ### Basic lemmas about the memory model -/

theorem rd8_lt (m : Nat → Nat) (a : Nat) : rd8 m a < 256 :=
  Nat.mod_lt _ (by omega)

theorem rd8_wr8 (m : Nat → Nat) (a v x : Nat) :
    rd8 (wr8 m a v) x = if x = a then v % 256 else rd8 m x := by
  by_cases h : x = a <;> simp [rd8, wr8, h, Nat.mod_mod_of_dvd]

theorem wr8_eq_of_ne (m : Nat → Nat) (a v x : Nat) (h : x ≠ a) :
    wr8 m a v x = m x := by
  simp [wr8, h]

theorem wrBytes_apply (l : List Nat) (m : Nat → Nat) (a x : Nat) :
    wrBytes m a l x =
      if a ≤ x ∧ x < a + l.length then l.getD (x - a) 0 % 256 else m x := by
  induction l generalizing m a with
  | nil =>
    simp only [wrBytes, List.length_nil, Nat.add_zero]
    rw [if_neg (by omega)]
  | cons b t ih =>
    simp only [wrBytes, ih, List.length_cons]
    by_cases h1 : a + 1 ≤ x ∧ x < a + 1 + t.length
    · rw [if_pos h1, if_pos (by omega)]
      have hx : x - a = (x - (a + 1)) + 1 := by omega
      rw [hx, List.getD_cons_succ]
    · rw [if_neg h1]
      by_cases h2 : x = a
      · subst h2
        rw [wr8, if_pos rfl, if_pos (by omega)]
        simp
      · rw [wr8_eq_of_ne _ _ _ _ h2, if_neg (by omega)]

theorem memcpyM_lt (n : Nat) (m : Nat → Nat) (d s x : Nat)
    (h : x < d ∨ d + n ≤ x) : memcpyM m d s n x = m x := by
  induction n generalizing m d s with
  | zero => rfl
  | succ k ih =>
    show memcpyM (wr8 m d (m s)) (d + 1) (s + 1) k x = m x
    rw [ih _ _ _ (by omega), wr8_eq_of_ne _ _ _ _ (by omega)]

theorem memcpyM_apply (n : Nat) (m : Nat → Nat) (d s x : Nat)
    (hdisj : d + n ≤ s ∨ s + n ≤ d) :
    memcpyM m d s n x =
      if d ≤ x ∧ x < d + n then m (s + (x - d)) % 256 else m x := by
  induction n generalizing m d s with
  | zero =>
    simp only [memcpyM]
    rw [if_neg (by omega)]
  | succ k ih =>
    show memcpyM (wr8 m d (m s)) (d + 1) (s + 1) k x = _
    rw [ih _ _ _ (by omega)]
    by_cases h1 : d + 1 ≤ x ∧ x < d + 1 + k
    · rw [if_pos h1, if_pos (by omega)]
      have hsrc : s + 1 + (x - (d + 1)) = s + (x - d) := by omega
      rw [hsrc, wr8_eq_of_ne _ _ _ _ (by omega)]
    · rw [if_neg h1]
      by_cases h2 : x = d
      · subst h2
        rw [wr8, if_pos rfl, if_pos (by omega)]
        simp
      · rw [wr8_eq_of_ne _ _ _ _ h2, if_neg (by omega)]

theorem csum_congr (m1 m2 : Nat → Nat) (p n : Nat)
    (h : ∀ i, i < n → rd8 m1 (p + i) = rd8 m2 (p + i)) :
    checksum m1 p n = checksum m2 p n := by
  induction n with
  | zero => rfl
  | succ k ih =>
    show (checksum m1 p k + rd8 m1 (p + k)) % 256 = (checksum m2 p k + rd8 m2 (p + k)) % 256
    rw [ih (fun i hi => h i (by omega)), h k (by omega)]

theorem csum_lt (m : Nat → Nat) (p n : Nat) : checksum m p n < 256 := by
  cases n with
  | zero => simp [checksum]
  | succ k => exact Nat.mod_lt _ (by omega)

/-- Changing one byte inside the summed window shifts the checksum by the
byte delta (mod 256). -/
theorem csum_wr8 (m : Nat → Nat) (p k v n : Nat) (hk : k < n) :
    checksum (wr8 m (p + k) v) p n =
      (checksum m p n + 256 + v % 256 - rd8 m (p + k)) % 256 := by
  induction n with
  | zero => omega
  | succ j ih =>
    show (checksum (wr8 m (p + k) v) p j + rd8 (wr8 m (p + k) v) (p + j)) % 256 = _
    by_cases hkj : k = j
    · subst hkj
      rw [csum_congr (wr8 m (p + k) v) m p k
            (fun i hi => by rw [rd8_wr8, if_neg (by omega)])]
      rw [rd8_wr8, if_pos rfl]
      have h1 := csum_lt m p k
      have h2 := rd8_lt m (p + k)
      show (checksum m p k + v % 256) % 256 =
        ((checksum m p k + rd8 m (p + k)) % 256 + 256 + v % 256 - rd8 m (p + k)) % 256
      omega
    · have hk' : k < j := by omega
      rw [ih hk', rd8_wr8, if_neg (by omega)]
      have h1 := csum_lt m p j
      have h2 := rd8_lt m (p + k)
      have h3 := rd8_lt m (p + j)
      have h4 : v % 256 < 256 := Nat.mod_lt _ (by omega)
      show ((checksum m p j + 256 + v % 256 - rd8 m (p + k)) % 256 + rd8 m (p + j)) % 256 =
        ((checksum m p j + rd8 m (p + j)) % 256 + 256 + v % 256 - rd8 m (p + k)) % 256
      omega

theorem rd32_lt (m : Nat → Nat) (a : Nat) : rd32 m a < 2 ^ 32 := by
  have h0 := rd8_lt m a
  have h1 := rd8_lt m (a + 1)
  have h2 := rd8_lt m (a + 2)
  have h3 := rd8_lt m (a + 3)
  simp only [rd32]
  omega

theorem rd64_lt (m : Nat → Nat) (a : Nat) : rd64 m a < 2 ^ 64 := by
  have h0 := rd32_lt m a
  have h1 := rd32_lt m (a + 4)
  simp only [rd64]
  omega

theorem rd32_congr (m1 m2 : Nat → Nat) (a : Nat)
    (h : ∀ i, i < 4 → rd8 m1 (a + i) = rd8 m2 (a + i)) : rd32 m1 a = rd32 m2 a := by
  have h0 := h 0 (by omega)
  have h1 := h 1 (by omega)
  have h2 := h 2 (by omega)
  have h3 := h 3 (by omega)
  simp only [Nat.add_zero] at h0
  simp only [rd32, h0, h1, h2, h3]

/-- Reading back a 32-bit store returns the value reduced mod `2^32`. -/
theorem rd32_wr32 (m : Nat → Nat) (a v : Nat) : rd32 (wr32 m a v) a = v % 2 ^ 32 := by
  have e0 : rd8 (wr32 m a v) a = v % 256 := by
    simp only [wr32, rd8_wr8]
    simp
  have e1 : rd8 (wr32 m a v) (a + 1) = v / 2 ^ 8 % 256 := by
    simp only [wr32, rd8_wr8]
    simp
  have e2 : rd8 (wr32 m a v) (a + 2) = v / 2 ^ 16 % 256 := by
    simp only [wr32, rd8_wr8]
    simp
  have e3 : rd8 (wr32 m a v) (a + 3) = v / 2 ^ 24 % 256 := by
    simp only [wr32, rd8_wr8]
    simp
  simp only [rd32, e0, e1, e2, e3]
  omega

theorem wr32_eq_of_ne (m : Nat → Nat) (a v x : Nat) (h : x < a ∨ a + 4 ≤ x) :
    wr32 m a v x = m x := by
  simp only [wr32]
  rw [wr8_eq_of_ne _ _ _ _ (by omega), wr8_eq_of_ne _ _ _ _ (by omega),
    wr8_eq_of_ne _ _ _ _ (by omega), wr8_eq_of_ne _ _ _ _ (by omega)]

/-! ## SMBIOS structure iterator (`smbios_next`)

`struct smbios_structure_header` is 4 bytes: `type` (u8 at offset 0),
`length` (u8 at offset 1), `handle` (u16 at offset 2). -/

/-- The terminator scan of `smbios_next`:
`while (prev < end && (*(u8*)(prev-1) != 0 || *(u8*)(prev-2) != 0)) prev++;`
run with explicit fuel (the loop advances by one while `p < e`, so fuel
`e - p` is exact). -/
def scanLoop (m : Nat → Nat) (e : Nat) : Nat → Nat → Nat
  | 0, p => p
  | f + 1, p =>
    if p < e ∧ ¬(rd8 m (p - 1) = 0 ∧ rd8 m (p - 2) = 0) then scanLoop m e f (p + 1)
    else p

/-- The terminator scan, fuelled by its own bound. -/
def scanTerm (m : Nat → Nat) (e p : Nat) : Nat := scanLoop m e (e - p) p

/-- The trailing validation of `smbios_next` (line 285): the candidate, its
fixed header and its declared length must all fit strictly before `end`. -/
def smbios_check (m : Nat → Nat) (start length p : Nat) : Option Nat :=
  if p ≥ start + length ∨ p + 4 ≥ start + length ∨ p + rd8 m (p + 1) ≥ start + length
  then none
  else some p

/-- `smbios_next(start, length, prev)`.  `start = 0` models the C null
pointer.  The result is the address of the next structure, or `none`. -/
def smbios_next (m : Nat → Nat) (start length : Nat) (prev : Option Nat) : Option Nat :=
  if start = 0 then none
  else
    match prev with
    | none => smbios_check m start length start
    | some pv =>
      if pv + 4 > start + length then none
      else smbios_check m start length
        (scanTerm m (start + length) (pv + rd8 m (pv + 1) + 2))

/-! ### Lemmas about the scan -/

theorem scanLoop_le (m : Nat → Nat) (e : Nat) :
    ∀ f p, p ≤ e → scanLoop m e f p ≤ e := by
  intro f
  induction f with
  | zero => intro p hp; exact hp
  | succ k ih =>
    intro p hp
    show (if p < e ∧ ¬(rd8 m (p - 1) = 0 ∧ rd8 m (p - 2) = 0)
          then scanLoop m e k (p + 1) else p) ≤ e
    by_cases h : p < e ∧ ¬(rd8 m (p - 1) = 0 ∧ rd8 m (p - 2) = 0)
    · rw [if_pos h]
      exact ih (p + 1) (by omega)
    · rw [if_neg h]; exact hp

theorem scanTerm_le (m : Nat → Nat) (e p : Nat) (hp : p ≤ e) : scanTerm m e p ≤ e :=
  scanLoop_le m e (e - p) p hp

theorem scanLoop_eq_of_ge (m : Nat → Nat) (e : Nat) (f p : Nat) (hp : e ≤ p) :
    scanLoop m e f p = p := by
  cases f with
  | zero => rfl
  | succ k =>
    show (if p < e ∧ ¬(rd8 m (p - 1) = 0 ∧ rd8 m (p - 2) = 0)
          then scanLoop m e k (p + 1) else p) = p
    rw [if_neg (by omega)]

theorem scanLoop_ge (m : Nat → Nat) (e : Nat) (f p : Nat) : p ≤ scanLoop m e f p := by
  induction f generalizing p with
  | zero => exact Nat.le_refl p
  | succ k ih =>
    show p ≤ (if p < e ∧ ¬(rd8 m (p - 1) = 0 ∧ rd8 m (p - 2) = 0)
              then scanLoop m e k (p + 1) else p)
    by_cases h : p < e ∧ ¬(rd8 m (p - 1) = 0 ∧ rd8 m (p - 2) = 0)
    · rw [if_pos h]; exact Nat.le_trans (by omega) (ih (p + 1))
    · rw [if_neg h]

/-- The scan result only depends on bytes strictly below `e`: the loop never
reads at or past the table end. -/
theorem scanLoop_congr (m1 m2 : Nat → Nat) (e : Nat)
    (h : ∀ a, a < e → rd8 m1 a = rd8 m2 a) (f p : Nat) :
    scanLoop m1 e f p = scanLoop m2 e f p := by
  induction f generalizing p with
  | zero => rfl
  | succ k ih =>
    show (if p < e ∧ ¬(rd8 m1 (p - 1) = 0 ∧ rd8 m1 (p - 2) = 0)
          then scanLoop m1 e k (p + 1) else p) =
         (if p < e ∧ ¬(rd8 m2 (p - 1) = 0 ∧ rd8 m2 (p - 2) = 0)
          then scanLoop m2 e k (p + 1) else p)
    by_cases hpe : p < e
    · have e1 : rd8 m1 (p - 1) = rd8 m2 (p - 1) := h (p - 1) (by omega)
      have e2 : rd8 m1 (p - 2) = rd8 m2 (p - 2) := h (p - 2) (by omega)
      rw [e1, e2]
      by_cases hc : p < e ∧ ¬(rd8 m2 (p - 1) = 0 ∧ rd8 m2 (p - 2) = 0)
      · rw [if_pos hc, if_pos hc]; exact ih (p + 1)
      · rw [if_neg hc, if_neg hc]
    · rw [if_neg (by omega), if_neg (by omega)]

theorem smbios_check_congr (m1 m2 : Nat → Nat) (start length p : Nat)
    (h : ∀ a, a < start + length → rd8 m1 a = rd8 m2 a) :
    smbios_check m1 start length p = smbios_check m2 start length p := by
  unfold smbios_check
  by_cases h4 : p + 4 ≥ start + length
  · rw [if_pos (by omega), if_pos (by omega)]
  · have e1 : rd8 m1 (p + 1) = rd8 m2 (p + 1) := h (p + 1) (by omega)
    rw [e1]

theorem smbios_next_congr (m1 m2 : Nat → Nat) (start length : Nat) (prev : Option Nat)
    (h : ∀ a, a < start + length → rd8 m1 a = rd8 m2 a) :
    smbios_next m1 start length prev = smbios_next m2 start length prev := by
  unfold smbios_next
  by_cases hs : start = 0
  · simp [hs]
  · rw [if_neg hs, if_neg hs]
    cases prev with
    | none => exact smbios_check_congr m1 m2 start length start h
    | some pv =>
      show (if pv + 4 > start + length then none
            else smbios_check m1 start length
              (scanTerm m1 (start + length) (pv + rd8 m1 (pv + 1) + 2))) =
           (if pv + 4 > start + length then none
            else smbios_check m2 start length
              (scanTerm m2 (start + length) (pv + rd8 m2 (pv + 1) + 2)))
      by_cases hb : pv + 4 > start + length
      · rw [if_pos hb, if_pos hb]
      · rw [if_neg hb, if_neg hb]
        have e1 : rd8 m1 (pv + 1) = rd8 m2 (pv + 1) := h (pv + 1) (by omega)
        rw [e1]
        unfold scanTerm
        rw [scanLoop_congr m1 m2 (start + length) (fun a ha => h a ha)]
        exact smbios_check_congr m1 m2 start length _ h

theorem smbios_check_some (m : Nat → Nat) (start length p r : Nat)
    (h : smbios_check m start length p = some r) :
    r = p ∧ p < start + length ∧ p + 4 < start + length ∧
      p + rd8 m (p + 1) < start + length := by
  unfold smbios_check at h
  by_cases hc : p ≥ start + length ∨ p + 4 ≥ start + length ∨
      p + rd8 m (p + 1) ≥ start + length
  · rw [if_pos hc] at h; exact absurd h (by simp)
  · rw [if_neg hc] at h
    refine ⟨(Option.some.inj h).symm, by omega, by omega, by omega⟩

/-- C1: `smbios_next` never reads at or past `base + length` (its result is
unchanged when bytes from `base + length` on are replaced arbitrarily), its
terminator scan never advances past `base + length`, and it returns a
structure only when the candidate position, its 4-byte fixed header, and its
header-declared length all lie strictly before `base + length`. -/
theorem smbios_next_in_bounds (m malt : Nat → Nat) (start len : Nat) (prev : Option Nat) :
    ((∀ a, a < start + len → rd8 m a = rd8 malt a) →
      smbios_next m start len prev = smbios_next malt start len prev)
    ∧ (∀ p, p ≤ start + len → scanTerm m (start + len) p ≤ start + len)
    ∧ (∀ r, smbios_next m start len prev = some r →
        r < start + len ∧ r + 4 < start + len ∧ r + rd8 m (r + 1) < start + len) := by
  refine ⟨fun h => smbios_next_congr m malt start len prev h,
    fun p hp => scanTerm_le m (start + len) p hp, fun r hr => ?_⟩
  unfold smbios_next at hr
  by_cases hs : start = 0
  · rw [if_pos hs] at hr; exact absurd hr (by simp)
  · rw [if_neg hs] at hr
    cases prev with
    | none =>
      obtain ⟨hrp, h1, h2, h3⟩ := smbios_check_some m start len start r hr
      subst hrp; exact ⟨h1, h2, h3⟩
    | some pv =>
      have hr2 : (if pv + 4 > start + len then none
          else smbios_check m start len
            (scanTerm m (start + len) (pv + rd8 m (pv + 1) + 2))) = some r := hr
      by_cases hb : pv + 4 > start + len
      · rw [if_pos hb] at hr2
        exact absurd hr2 (by simp)
      · rw [if_neg hb] at hr2
        obtain ⟨hrp, h1, h2, h3⟩ := smbios_check_some m start len _ r hr2
        subst hrp; exact ⟨h1, h2, h3⟩

theorem smbios_next_in_bounds_witness :
    smbios_next (fun _ => 0) 1 6 none = smbios_next (fun _ => 1) 1 6 none
    ∧ scanTerm (fun _ => 0) (1 + 6) 4 ≤ 1 + 6
    ∧ (1 < 1 + 6 ∧ 1 + 4 < 1 + 6 ∧ 1 + rd8 (fun _ => 0) (1 + 1) < 1 + 6) := by
  obtain ⟨h1, h2, h3⟩ := smbios_next_in_bounds (fun _ => 0) (fun _ => 1) 1 6 none
  exact ⟨by decide, h2 4 (by omega), h3 1 (by decide)⟩

/-- C3 (counterexample): the first call does *not* unconditionally return the
table base: with `length = 0` the end validation fails and it returns `none`. -/
theorem smbios_next_first_call_cex : smbios_next (fun _ => 0) 1 0 none = none := by
  decide

theorem smbios_next_start_eq (m : Nat → Nat) (start len : Nat) (hs : start ≠ 0) :
    smbios_next m start len none =
      if 4 < len ∧ rd8 m (start + 1) < len then some start else none := by
  unfold smbios_next smbios_check
  rw [if_neg hs]
  by_cases hc : 4 < len ∧ rd8 m (start + 1) < len
  · rw [if_pos hc, if_neg (by omega)]
  · rw [if_neg hc, if_pos (by omega)]

/-- C3 (amended): the first call (`prev = none`) on a non-null base returns
the base itself exactly when the base's fixed header and its declared length
fit strictly before `base + length`; otherwise it returns `none` (the same
end-of-table validation applied to later candidates; no further content
validation happens). -/
theorem smbios_next_first_call (m : Nat → Nat) (start len : Nat) (hs : start ≠ 0) :
    smbios_next m start len none =
      if 4 < len ∧ rd8 m (start + 1) < len then some start else none :=
  smbios_next_start_eq m start len hs

theorem smbios_next_first_call_witness :
    (1 : Nat) ≠ 0 ∧
      smbios_next (fun _ => 0) 1 6 none =
        (if 4 < 6 ∧ rd8 (fun _ => 0) (1 + 1) < 6 then some 1 else none) :=
  ⟨by decide, smbios_next_first_call (fun _ => 0) 1 6 (by decide)⟩

/-! ## Table signatures (wire format constants) -/

/-- `"$PIR"` as a little-endian u32. -/
def PIR_SIGNATURE : Nat := 0x52495024

/-- `"_MP_"` as a little-endian u32. -/
def MPTABLE_SIGNATURE : Nat := 0x5F504D5F

/-- `"RSD PTR "` as a little-endian u64. -/
def RSDP_SIGNATURE : Nat := 0x2052545020445352

/-- `"_SM_"` as a little-endian u32. -/
def SMBIOS_21_SIGNATURE : Nat := 0x5F4D535F

/-- Modelled from the spec: `BUILD_MAX_MPTABLE_FSEG` comes from `config.h`,
which is not part of this repository; the spec only calls it "a fixed
maximum footprint".  The default value of the build is 600. -/
def BUILD_MAX_MPTABLE_FSEG : Nat := 600

/-- u8 subtraction `a - b` as the C `-=` on a byte lvalue. -/
def sub8 (a b : Nat) : Nat := (a + 256 - b % 256) % 256

/-! ## Table relocator and copy routines

Each routine takes the current registration slot (`Option Nat`, the C global
such as `PirAddr`), the candidate position, and the allocator's answer for
this call (`alloc = 0` models `malloc_fseg` failure).  It returns the new
slot value and the new memory. -/

/-- `copy_fseg_table`: allocate and copy `size` bytes. -/
def copy_fseg_table (m : Nat → Nat) (pos size alloc : Nat) : Option Nat × (Nat → Nat) :=
  if alloc = 0 then (none, m)
  else (some alloc, memcpyM m alloc pos size)

/-- `copy_pir`.  `struct pir_header` is 32 bytes; `size` is the u16 at
offset 6. -/
def copy_pir (m : Nat → Nat) (pirAddr : Option Nat) (pos alloc : Nat) :
    Option Nat × (Nat → Nat) :=
  if rd32 m pos ≠ PIR_SIGNATURE then (pirAddr, m)
  else if pirAddr.isSome then (pirAddr, m)
  else if rd16 m (pos + 6) < 32 then (pirAddr, m)
  else if checksum m pos (rd16 m (pos + 6)) ≠ 0 then (pirAddr, m)
  else copy_fseg_table m pos (rd16 m (pos + 6)) alloc

/-- `copy_mptable`.  `struct mptable_floating_s` is 16 bytes: signature u32
at 0, `physaddr` u32 at 4, `length` u8 at 8 (in 16-byte units), checksum u8
at 10.  The referenced `struct mptable_config_s` has its u16 `length` at
offset 4.  There is no registration slot. -/
def copy_mptable (m : Nat → Nat) (pos alloc : Nat) : Option Nat × (Nat → Nat) :=
  if rd32 m pos ≠ MPTABLE_SIGNATURE then (none, m)
  else if rd32 m (pos + 4) = 0 then (none, m)
  else if checksum m pos 16 ≠ 0 then (none, m)
  else
    let length := rd8 m (pos + 8) * 16
    let mpclength := rd16 m (rd32 m (pos + 4) + 4)
    if length + mpclength > BUILD_MAX_MPTABLE_FSEG then (none, m)
    else if alloc = 0 then (none, m)
    else
      let m1 := memcpyM m alloc pos length
      let m2 := wr32 m1 (alloc + 4) (alloc + length)
      let m3 := wr8 m2 (alloc + 10) (sub8 (rd8 m2 (alloc + 10)) (checksum m2 alloc 16))
      (some alloc, memcpyM m3 (alloc + length) (rd32 m3 (pos + 4)) mpclength)

/-- The value of a u32 read back through the C `int` return type: two's
complement, so values `≥ 2^31` come back negative. -/
def toInt32 (v : Nat) : Int :=
  if v % 2 ^ 32 < 2 ^ 31 then (v % 2 ^ 32 : Int) else (v % 2 ^ 32 : Int) - 2 ^ 32

/-- `get_acpi_rsdp_length(pos, size)` returns `int`: `-1` on every failed
check, otherwise the u32 `length` narrowed to a signed 32-bit value.  The
RSDP's `revision` is the u8 at offset 15 and its declared `length` the u32
at offset 20. -/
def get_acpi_rsdp_length (m : Nat → Nat) (pos size : Nat) : Int :=
  if rd64 m pos ≠ RSDP_SIGNATURE then -1
  else if 20 > size then -1
  else if checksum m pos 20 ≠ 0 then -1
  else if 1 < rd8 m (pos + 15) then
    if rd32 m (pos + 20) > size then -1
    else if checksum m pos (rd32 m (pos + 20)) ≠ 0 then -1
    else toInt32 (rd32 m (pos + 20))
  else toInt32 20

/-- `copy_acpi_rsdp`: the C call passes `-1` as the available size, i.e. the
unsigned value `2^32 - 1`, and rejects a negative `int` result. -/
def copy_acpi_rsdp (m : Nat → Nat) (rsdpAddr : Option Nat) (pos alloc : Nat) :
    Option Nat × (Nat → Nat) :=
  if rsdpAddr.isSome then (rsdpAddr, m)
  else
    let length := get_acpi_rsdp_length m pos (2 ^ 32 - 1)
    if length < 0 then (none, m)
    else copy_fseg_table m pos length.toNat alloc

/-- `copy_smbios_21`.  Entry point layout: signature u32 at 0, checksum u8
at 4, `length` u8 at 5, intermediate anchor `"_DMI_"` at 16. -/
def copy_smbios_21 (m : Nat → Nat) (slot : Option Nat) (pos alloc : Nat) :
    Option Nat × (Nat → Nat) :=
  if slot.isSome then (slot, m)
  else if rd32 m pos ≠ SMBIOS_21_SIGNATURE then (slot, m)
  else if checksum m pos 0x10 ≠ 0 then (slot, m)
  else if ¬(rd8 m (pos + 16) = 0x5F ∧ rd8 m (pos + 17) = 0x44 ∧
            rd8 m (pos + 18) = 0x4D ∧ rd8 m (pos + 19) = 0x49 ∧
            rd8 m (pos + 20) = 0x5F) then (slot, m)
  else if checksum m (pos + 0x10) (rd8 m (pos + 5) - 0x10) ≠ 0 then (slot, m)
  else copy_fseg_table m pos (rd8 m (pos + 5)) alloc

/-- `valid_smbios_30_signature`: `memcmp(p->signature, "_SM3_", 5) == 0`. -/
def valid_smbios_30_signature (m : Nat → Nat) (pos : Nat) : Bool :=
  decide (rd8 m pos = 0x5F ∧ rd8 m (pos + 1) = 0x53 ∧ rd8 m (pos + 2) = 0x4D ∧
          rd8 m (pos + 3) = 0x33 ∧ rd8 m (pos + 4) = 0x5F)

/-- `copy_smbios_30`.  Entry point layout: anchor at 0, checksum u8 at 5,
`length` u8 at 6. -/
def copy_smbios_30 (m : Nat → Nat) (slot : Option Nat) (pos alloc : Nat) :
    Option Nat × (Nat → Nat) :=
  if slot.isSome then (slot, m)
  else if ¬valid_smbios_30_signature m pos then (slot, m)
  else if checksum m pos (rd8 m (pos + 6)) ≠ 0 then (slot, m)
  else copy_fseg_table m pos (rd8 m (pos + 6)) alloc

/-! ## C2: first-successful-registration wins -/

/-- C2 (counterexample): `copy_mptable` has no registration slot, so a second
call after a first successful relocation is *not* a no-op: with a valid
floating pointer still in memory it performs a second relocation (here to
address 200) and writes fresh bytes there. -/
theorem copy_mptable_second_call_cex :
    (copy_mptable (fun a =>
        [0x5F, 0x4D, 0x50, 0x5F, 32, 0, 0, 0, 1, 4, 128, 0, 0, 0, 0, 0,
         0, 0, 0, 0, 0, 0, 0, 0, 0, 0, 0, 0, 0, 0, 0, 0,
         0x50, 0x43, 0x4D, 0x50, 8, 0, 0, 0].getD a 0) 0 100).1 = some 100
    ∧ (copy_mptable ((copy_mptable (fun a =>
        [0x5F, 0x4D, 0x50, 0x5F, 32, 0, 0, 0, 1, 4, 128, 0, 0, 0, 0, 0,
         0, 0, 0, 0, 0, 0, 0, 0, 0, 0, 0, 0, 0, 0, 0, 0,
         0x50, 0x43, 0x4D, 0x50, 8, 0, 0, 0].getD a 0) 0 100).2) 0 200).1 = some 200
    ∧ (copy_mptable ((copy_mptable (fun a =>
        [0x5F, 0x4D, 0x50, 0x5F, 32, 0, 0, 0, 1, 4, 128, 0, 0, 0, 0, 0,
         0, 0, 0, 0, 0, 0, 0, 0, 0, 0, 0, 0, 0, 0, 0, 0,
         0x50, 0x43, 0x4D, 0x50, 8, 0, 0, 0].getD a 0) 0 100).2) 0 200).2 200 = 0x5F
    ∧ ((copy_mptable (fun a =>
        [0x5F, 0x4D, 0x50, 0x5F, 32, 0, 0, 0, 1, 4, 128, 0, 0, 0, 0, 0,
         0, 0, 0, 0, 0, 0, 0, 0, 0, 0, 0, 0, 0, 0, 0, 0,
         0x50, 0x43, 0x4D, 0x50, 8, 0, 0, 0].getD a 0) 0 100).2) 200 = 0 := by
  refine ⟨by decide, by decide, by decide, by decide⟩

/-- C2 (amended): the four slot-guarded routines (`copy_pir`,
`copy_acpi_rsdp`, `copy_smbios_21`, `copy_smbios_30`) are no-ops once their
slot is populated: the slot keeps its first value and memory (hence the
first relocated copy) is unchanged.  `copy_mptable`, which has no slot,
instead performs a fresh relocation on every valid candidate. -/
theorem copy_routines_first_wins :
    (∀ (m : Nat → Nat) (a pos alloc : Nat), copy_pir m (some a) pos alloc = (some a, m))
    ∧ (∀ (m : Nat → Nat) (a pos alloc : Nat),
        copy_acpi_rsdp m (some a) pos alloc = (some a, m))
    ∧ (∀ (m : Nat → Nat) (a pos alloc : Nat),
        copy_smbios_21 m (some a) pos alloc = (some a, m))
    ∧ (∀ (m : Nat → Nat) (a pos alloc : Nat),
        copy_smbios_30 m (some a) pos alloc = (some a, m))
    ∧ (∀ (m : Nat → Nat) (pos alloc : Nat),
        rd32 m pos = MPTABLE_SIGNATURE → rd32 m (pos + 4) ≠ 0 →
        checksum m pos 16 = 0 →
        rd8 m (pos + 8) * 16 + rd16 m (rd32 m (pos + 4) + 4) ≤ BUILD_MAX_MPTABLE_FSEG →
        alloc ≠ 0 →
        (copy_mptable m pos alloc).1 = some alloc) := by
  refine ⟨?_, ?_, ?_, ?_, ?_⟩
  · intro m a pos alloc
    unfold copy_pir
    by_cases h : rd32 m pos ≠ PIR_SIGNATURE
    · rw [if_pos h]
    · rw [if_neg h, if_pos (by simp)]
  · intro m a pos alloc
    unfold copy_acpi_rsdp
    rw [if_pos (by simp)]
  · intro m a pos alloc
    unfold copy_smbios_21
    rw [if_pos (by simp)]
  · intro m a pos alloc
    unfold copy_smbios_30
    rw [if_pos (by simp)]
  · intro m pos alloc hsig hphys hcs hsize halloc
    simp only [copy_mptable]
    rw [if_neg (by simp [hsig]), if_neg hphys, if_neg (by simp [hcs]),
      if_neg (by omega), if_neg halloc]

theorem copy_routines_first_wins_witness :
    copy_pir (fun _ => 0) (some 7) 0 9 = (some 7, fun _ => 0)
    ∧ (copy_mptable (fun a =>
        [0x5F, 0x4D, 0x50, 0x5F, 32, 0, 0, 0, 1, 4, 128, 0, 0, 0, 0, 0,
         0, 0, 0, 0, 0, 0, 0, 0, 0, 0, 0, 0, 0, 0, 0, 0,
         0x50, 0x43, 0x4D, 0x50, 8, 0, 0, 0].getD a 0) 0 100).1 = some 100 := by
  refine ⟨copy_routines_first_wins.1 (fun _ => 0) 7 0 9,
    copy_routines_first_wins.2.2.2.2 _ 0 100 (by decide) (by decide) (by decide)
      (by decide) (by decide)⟩

/-! ## C5: MPTable relocation -/

/-- C5: for a candidate passing all of `copy_mptable`'s checks (a valid
floating pointer: note the MP specification fixes `length ≥ 1`), with a
successful allocation disjoint from the two source regions, the relocated
copy's embedded `physaddr` equals `new_base + length*16` (as a u32), the
16-byte floating-pointer header re-checksums to 0, and the config table's
`mpclength` bytes follow at offset `length*16`; any candidate whose combined
footprint exceeds `BUILD_MAX_MPTABLE_FSEG` is rejected with memory
untouched. -/
theorem copy_mptable_relocation (m : Nat → Nat) (pos alloc : Nat)
    (hsig : rd32 m pos = MPTABLE_SIGNATURE)
    (hphys : rd32 m (pos + 4) ≠ 0)
    (hcs : checksum m pos 16 = 0)
    (hlen1 : 1 ≤ rd8 m (pos + 8))
    (hsize : rd8 m (pos + 8) * 16 + rd16 m (rd32 m (pos + 4) + 4) ≤ BUILD_MAX_MPTABLE_FSEG)
    (halloc : alloc ≠ 0)
    (hd1 : pos + rd8 m (pos + 8) * 16 ≤ alloc ∨
      alloc + rd8 m (pos + 8) * 16 + rd16 m (rd32 m (pos + 4) + 4) ≤ pos)
    (hd2 : rd32 m (pos + 4) + rd16 m (rd32 m (pos + 4) + 4) ≤ alloc ∨
      alloc + rd8 m (pos + 8) * 16 + rd16 m (rd32 m (pos + 4) + 4) ≤ rd32 m (pos + 4)) :
    (copy_mptable m pos alloc).1 = some alloc
    ∧ rd32 (copy_mptable m pos alloc).2 (alloc + 4) =
        (alloc + rd8 m (pos + 8) * 16) % 2 ^ 32
    ∧ checksum (copy_mptable m pos alloc).2 alloc 16 = 0
    ∧ (∀ j, j < rd16 m (rd32 m (pos + 4) + 4) →
        rd8 (copy_mptable m pos alloc).2 (alloc + rd8 m (pos + 8) * 16 + j) =
          rd8 m (rd32 m (pos + 4) + j))
    ∧ (∀ (m2 : Nat → Nat) (pos2 alloc2 : Nat),
        BUILD_MAX_MPTABLE_FSEG <
            rd8 m2 (pos2 + 8) * 16 + rd16 m2 (rd32 m2 (pos2 + 4) + 4) →
        copy_mptable m2 pos2 alloc2 = (none, m2)) := by
  set L := rd8 m (pos + 8) * 16 with hL
  set P := rd32 m (pos + 4) with hP
  set M := rd16 m (P + 4) with hM
  have hL16 : 16 ≤ L := by omega
  set m1 := memcpyM m alloc pos L with hm1
  set m2 := wr32 m1 (alloc + 4) (alloc + L) with hm2
  set m3 := wr8 m2 (alloc + 10) (sub8 (rd8 m2 (alloc + 10)) (checksum m2 alloc 16)) with hm3
  -- the whole call reduces to the success branch
  have hrun : copy_mptable m pos alloc =
      (some alloc, memcpyM m3 (alloc + L) (rd32 m3 (pos + 4)) M) := by
    simp only [copy_mptable]
    rw [← hP, ← hM, ← hL]
    rw [if_neg (by simp [hsig]), if_neg hphys, if_neg (by simp [hcs]),
      if_neg (by omega), if_neg halloc]
  -- bytes of the source regions are untouched by the relocation writes
  have hm3src : ∀ x, (x < alloc ∨ alloc + L ≤ x) → m3 x = m x := by
    intro x hx
    rw [hm3, wr8_eq_of_ne _ _ _ _ (by omega), hm2,
      wr32_eq_of_ne _ _ _ _ (by omega), hm1, memcpyM_lt _ _ _ _ _ (by omega)]
  have hsrc32 : rd32 m3 (pos + 4) = P := by
    rw [hP]
    refine rd32_congr m3 m (pos + 4) (fun i hi => ?_)
    unfold rd8
    rw [hm3src (pos + 4 + i) (by omega)]
  rw [hrun]
  refine ⟨rfl, ?_, ?_, ?_, ?_⟩
  · -- relocated physaddr field
    show rd32 (memcpyM m3 (alloc + L) (rd32 m3 (pos + 4)) M) (alloc + 4) = (alloc + L) % 2 ^ 32
    have h1 : rd32 (memcpyM m3 (alloc + L) (rd32 m3 (pos + 4)) M) (alloc + 4) =
        rd32 m3 (alloc + 4) := by
      refine rd32_congr _ m3 (alloc + 4) (fun i hi => ?_)
      unfold rd8
      rw [memcpyM_lt _ _ _ _ _ (by omega)]
    have h2 : rd32 m3 (alloc + 4) = rd32 m2 (alloc + 4) := by
      refine rd32_congr m3 m2 (alloc + 4) (fun i hi => ?_)
      rw [hm3, rd8_wr8, if_neg (by omega)]
    rw [h1, h2, hm2, rd32_wr32]
  · -- header checksum of the relocated copy is zero
    show checksum (memcpyM m3 (alloc + L) (rd32 m3 (pos + 4)) M) alloc 16 = 0
    have h1 : checksum (memcpyM m3 (alloc + L) (rd32 m3 (pos + 4)) M) alloc 16 =
        checksum m3 alloc 16 := by
      refine csum_congr _ m3 alloc 16 (fun i hi => ?_)
      unfold rd8
      rw [memcpyM_lt _ _ _ _ _ (by omega)]
    have h2 : checksum m3 alloc 16 =
        (checksum m2 alloc 16 + 256 + sub8 (rd8 m2 (alloc + 10)) (checksum m2 alloc 16) % 256
          - rd8 m2 (alloc + 10)) % 256 := by
      rw [hm3]
      have := csum_wr8 m2 alloc 10
        (sub8 (rd8 m2 (alloc + 10)) (checksum m2 alloc 16)) 16 (by omega)
      exact this
    have hc1 := csum_lt m2 alloc 16
    have hc2 := rd8_lt m2 (alloc + 10)
    rw [h1, h2]
    unfold sub8
    omega
  · -- the config-table bytes follow the relocated floating pointer
    intro j hj
    show rd8 (memcpyM m3 (alloc + L) (rd32 m3 (pos + 4)) M) (alloc + L + j) = rd8 m (P + j)
    rw [hsrc32]
    unfold rd8
    rw [memcpyM_apply M m3 (alloc + L) P (alloc + L + j) (by omega)]
    rw [if_pos (by omega)]
    have hPj : P + (alloc + L + j - (alloc + L)) = P + j := by omega
    rw [hPj, Nat.mod_mod_of_dvd _ (by norm_num), hm3src (P + j) (by omega)]
  · -- oversize candidates are rejected without copying
    intro ma pos2 alloc2 hbig
    simp only [copy_mptable]
    by_cases h1 : rd32 ma pos2 ≠ MPTABLE_SIGNATURE
    · rw [if_pos h1]
    · rw [if_neg h1]
      by_cases h2 : rd32 ma (pos2 + 4) = 0
      · rw [if_pos h2]
      · rw [if_neg h2]
        by_cases h3 : checksum ma pos2 16 ≠ 0
        · rw [if_pos h3]
        · rw [if_neg h3, if_pos (by omega)]

theorem copy_mptable_relocation_witness :
    (copy_mptable (fun a =>
        [0x5F, 0x4D, 0x50, 0x5F, 32, 0, 0, 0, 1, 4, 128, 0, 0, 0, 0, 0,
         0, 0, 0, 0, 0, 0, 0, 0, 0, 0, 0, 0, 0, 0, 0, 0,
         0x50, 0x43, 0x4D, 0x50, 8, 0, 0, 0].getD a 0) 0 100).1 = some 100
    ∧ rd32 (copy_mptable (fun a =>
        [0x5F, 0x4D, 0x50, 0x5F, 32, 0, 0, 0, 1, 4, 128, 0, 0, 0, 0, 0,
         0, 0, 0, 0, 0, 0, 0, 0, 0, 0, 0, 0, 0, 0, 0, 0,
         0x50, 0x43, 0x4D, 0x50, 8, 0, 0, 0].getD a 0) 0 100).2 (100 + 4) =
        (100 + rd8 (fun a =>
        [0x5F, 0x4D, 0x50, 0x5F, 32, 0, 0, 0, 1, 4, 128, 0, 0, 0, 0, 0,
         0, 0, 0, 0, 0, 0, 0, 0, 0, 0, 0, 0, 0, 0, 0, 0,
         0x50, 0x43, 0x4D, 0x50, 8, 0, 0, 0].getD a 0) (0 + 8) * 16) % 2 ^ 32
    ∧ checksum (copy_mptable (fun a =>
        [0x5F, 0x4D, 0x50, 0x5F, 32, 0, 0, 0, 1, 4, 128, 0, 0, 0, 0, 0,
         0, 0, 0, 0, 0, 0, 0, 0, 0, 0, 0, 0, 0, 0, 0, 0,
         0x50, 0x43, 0x4D, 0x50, 8, 0, 0, 0].getD a 0) 0 100).2 100 16 = 0 := by
  obtain ⟨h1, h2, h3, _, _⟩ := copy_mptable_relocation (fun a =>
        [0x5F, 0x4D, 0x50, 0x5F, 32, 0, 0, 0, 1, 4, 128, 0, 0, 0, 0, 0,
         0, 0, 0, 0, 0, 0, 0, 0, 0, 0, 0, 0, 0, 0, 0, 0,
         0x50, 0x43, 0x4D, 0x50, 8, 0, 0, 0].getD a 0) 0 100
    (by decide) (by decide) (by decide) (by decide) (by decide) (by decide)
    (by decide) (by decide)
  exact ⟨h1, h2, h3⟩

/-! ## C10: RSDP registration and the `int`-narrowed declared length -/

theorem toInt32_lt_zero (v : Nat) (hv : v < 2 ^ 32) : toInt32 v < 0 ↔ 2 ^ 31 ≤ v := by
  unfold toInt32
  rw [Nat.mod_eq_of_lt hv]
  split_ifs with h <;> omega

/-- `copy_acpi_rsdp` with an empty slot, unfolded. -/
theorem copy_acpi_rsdp_none_eq (m : Nat → Nat) (pos alloc : Nat) :
    copy_acpi_rsdp m none pos alloc =
      (if get_acpi_rsdp_length m pos (2 ^ 32 - 1) < 0 then (none, m)
       else copy_fseg_table m pos (get_acpi_rsdp_length m pos (2 ^ 32 - 1)).toNat alloc) :=
  rfl

/-- A checksum window whose bytes are all zero from offset `k` on sums to the
same value as the window cut at `k`. -/
theorem checksum_zero_tail (m : Nat → Nat) (p k : Nat)
    (h : ∀ i, k ≤ i → rd8 m (p + i) = 0) :
    ∀ n, k ≤ n → checksum m p n = checksum m p k := by
  intro n
  induction n with
  | zero => intro hn; cases Nat.le_zero.mp hn; rfl
  | succ n ih =>
    intro hn
    by_cases hkn : k = n + 1
    · subst hkn; rfl
    · have h1 : k ≤ n := by omega
      show (checksum m p n + rd8 m (p + n)) % 256 = checksum m p k
      rw [h n h1, Nat.add_zero, Nat.mod_eq_of_lt (csum_lt m p n), ih h1]

/-- A revision-2 RSDP whose 20-byte checksum is 0 and whose declared length
is `2^31` with full checksum 0: bytes 0-7 the signature, byte 8 adjusting
the 20-byte sum, byte 15 the revision, bytes 20-23 the length, byte 32
adjusting the full sum; every byte from offset 36 on is zero. -/
def bigRsdpMem : Nat → Nat := fun a =>
  [0x52, 0x53, 0x44, 0x20, 0x50, 0x54, 0x52, 0x20, 223, 0,
   0, 0, 0, 0, 0, 2, 0, 0, 0, 0,
   0, 0, 0, 0x80, 0, 0, 0, 0, 0, 0,
   0, 0, 128, 0, 0, 0].getD a 0

theorem bigRsdpMem_full_checksum : checksum bigRsdpMem 0 (2 ^ 31) = 0 := by
  have h36 : checksum bigRsdpMem 0 (2 ^ 31) = checksum bigRsdpMem 0 36 := by
    refine checksum_zero_tail bigRsdpMem 0 36 (fun i hi => ?_) (2 ^ 31) (by norm_num)
    show bigRsdpMem (0 + i) % 256 = 0
    rw [Nat.zero_add]
    unfold bigRsdpMem
    rw [List.getD_eq_default _ _ (by simpa using hi)]
  rw [h36]; decide

/-- C10 (counterexample): a revision-2 RSDP candidate whose 20-byte checksum
and whose checksum over its full self-declared length `2^31` are both 0 is
nevertheless NOT registered by `copy_acpi_rsdp`: the declared length travels
through the C `int` return of `get_acpi_rsdp_length`, comes back negative,
and the negative-result check rejects it — refuting "regardless of how large
that declared length is". -/
theorem copy_acpi_rsdp_large_length_cex :
    rd64 bigRsdpMem 0 = RSDP_SIGNATURE
    ∧ checksum bigRsdpMem 0 20 = 0
    ∧ 1 < rd8 bigRsdpMem (0 + 15)
    ∧ rd32 bigRsdpMem (0 + 20) = 2 ^ 31
    ∧ checksum bigRsdpMem 0 (rd32 bigRsdpMem (0 + 20)) = 0
    ∧ (copy_acpi_rsdp bigRsdpMem none 0 50).1 = none := by
  have h20 : rd32 bigRsdpMem (0 + 20) = 2 ^ 31 := by decide
  refine ⟨by decide, by decide, by decide, h20, ?_, ?_⟩
  · rw [h20]; exact bigRsdpMem_full_checksum
  · have hlen : get_acpi_rsdp_length bigRsdpMem 0 (2 ^ 32 - 1) = toInt32 (2 ^ 31) := by
      unfold get_acpi_rsdp_length
      rw [if_neg (by decide), if_neg (by decide), if_neg (by decide), if_pos (by decide),
        h20, if_neg (by norm_num), if_neg (by rw [bigRsdpMem_full_checksum]; simp)]
    rw [copy_acpi_rsdp_none_eq, hlen,
      if_pos ((toInt32_lt_zero (2 ^ 31) (by norm_num)).mpr (by norm_num))]

/-- With the available bound `2^32 - 1`, `get_acpi_rsdp_length` reduces to
its checksum/signature checks followed by the `int` narrowing of the chosen
length: the length-versus-available guards themselves never fire. -/
theorem get_acpi_rsdp_length_unbounded (m : Nat → Nat) (pos : Nat) :
    get_acpi_rsdp_length m pos (2 ^ 32 - 1) =
      if rd64 m pos = RSDP_SIGNATURE ∧ checksum m pos 20 = 0 ∧
          (1 < rd8 m (pos + 15) → checksum m pos (rd32 m (pos + 20)) = 0)
      then if 1 < rd8 m (pos + 15) then toInt32 (rd32 m (pos + 20)) else toInt32 20
      else -1 := by
  unfold get_acpi_rsdp_length
  by_cases h1 : rd64 m pos ≠ RSDP_SIGNATURE
  · rw [if_pos h1, if_neg (fun hc => h1 hc.1)]
  · rw [if_neg h1, if_neg (by omega)]
    by_cases h2 : checksum m pos 20 ≠ 0
    · rw [if_pos h2, if_neg (fun hc => h2 hc.2.1)]
    · by_cases h3 : 1 < rd8 m (pos + 15)
      · rw [if_neg h2, if_pos h3, if_neg (by have := rd32_lt m (pos + 20); omega)]
        by_cases h4 : checksum m pos (rd32 m (pos + 20)) ≠ 0
        · rw [if_pos h4, if_neg (fun hc => h4 (hc.2.2 h3))]
        · rw [if_neg h4,
            if_pos ⟨of_not_not h1, of_not_not h2, fun _ => of_not_not h4⟩, if_pos h3]
      · rw [if_neg h2, if_neg h3,
          if_pos ⟨of_not_not h1, of_not_not h2, fun h => absurd h h3⟩, if_neg h3]

/-- C10 (amended): `copy_acpi_rsdp` validates with an available bound of
`2^32 - 1` (the C `-1` as unsigned), so the declared-length-versus-available
guard in `get_acpi_rsdp_length` can never reject (a u32 length cannot exceed
it); but the length is returned through a signed `int` and the negative
result of narrowing a length `≥ 2^31` is rejected, so a candidate is
registered iff no RSDP is registered yet, its signature matches, the 20-byte
header checksum is 0, and, for revision > 1, its declared length is `< 2^31`
and the checksum over that full declared length is 0. -/
theorem copy_acpi_rsdp_registration (m : Nat → Nat) (pos alloc : Nat) (halloc : alloc ≠ 0) :
    ((copy_acpi_rsdp m none pos alloc).1.isSome ↔
      (rd64 m pos = RSDP_SIGNATURE ∧ checksum m pos 20 = 0 ∧
        (1 < rd8 m (pos + 15) →
          rd32 m (pos + 20) < 2 ^ 31 ∧ checksum m pos (rd32 m (pos + 20)) = 0)))
    ∧ (∀ a, copy_acpi_rsdp m (some a) pos alloc = (some a, m))
    ∧ (∀ x, rd32 m x ≤ 2 ^ 32 - 1) := by
  refine ⟨?_, fun a => by unfold copy_acpi_rsdp; rw [if_pos (by simp)],
    fun x => by have := rd32_lt m x; omega⟩
  rw [copy_acpi_rsdp_none_eq, get_acpi_rsdp_length_unbounded]
  by_cases hc : rd64 m pos = RSDP_SIGNATURE ∧ checksum m pos 20 = 0 ∧
      (1 < rd8 m (pos + 15) → checksum m pos (rd32 m (pos + 20)) = 0)
  · rw [if_pos hc]
    by_cases h3 : 1 < rd8 m (pos + 15)
    · rw [if_pos h3]
      by_cases hbig : 2 ^ 31 ≤ rd32 m (pos + 20)
      · rw [if_pos ((toInt32_lt_zero _ (rd32_lt m (pos + 20))).mpr hbig)]
        exact iff_of_false (by simp) (fun h => absurd (h.2.2 h3).1 (by omega))
      · rw [if_neg (by rw [toInt32_lt_zero _ (rd32_lt m (pos + 20))]; omega)]
        unfold copy_fseg_table
        rw [if_neg halloc]
        exact iff_of_true (by simp) ⟨hc.1, hc.2.1, fun h => ⟨by omega, hc.2.2 h⟩⟩
    · rw [if_neg h3, if_neg (by rw [toInt32_lt_zero 20 (by norm_num)]; omega)]
      unfold copy_fseg_table
      rw [if_neg halloc]
      exact iff_of_true (by simp) ⟨hc.1, hc.2.1, fun h => absurd h h3⟩
  · rw [if_neg hc, if_pos (by norm_num)]
    exact iff_of_false (by simp) (fun h => hc ⟨h.1, h.2.1, fun h3 => (h.2.2 h3).2⟩)

theorem copy_acpi_rsdp_registration_witness :
    ((copy_acpi_rsdp (fun a =>
        [0x52, 0x53, 0x44, 0x20, 0x50, 0x54, 0x52, 0x20, 225, 0,
         0, 0, 0, 0, 0, 0, 0, 0, 0, 0].getD a 0) none 0 50).1.isSome ↔
      (rd64 (fun a =>
        [0x52, 0x53, 0x44, 0x20, 0x50, 0x54, 0x52, 0x20, 225, 0,
         0, 0, 0, 0, 0, 0, 0, 0, 0, 0].getD a 0) 0 = RSDP_SIGNATURE ∧
       checksum (fun a =>
        [0x52, 0x53, 0x44, 0x20, 0x50, 0x54, 0x52, 0x20, 225, 0,
         0, 0, 0, 0, 0, 0, 0, 0, 0, 0].getD a 0) 0 20 = 0 ∧
       (1 < rd8 (fun a =>
        [0x52, 0x53, 0x44, 0x20, 0x50, 0x54, 0x52, 0x20, 225, 0,
         0, 0, 0, 0, 0, 0, 0, 0, 0, 0].getD a 0) (0 + 15) →
        rd32 (fun a =>
        [0x52, 0x53, 0x44, 0x20, 0x50, 0x54, 0x52, 0x20, 225, 0,
         0, 0, 0, 0, 0, 0, 0, 0, 0, 0].getD a 0) (0 + 20) < 2 ^ 31 ∧
        checksum (fun a =>
        [0x52, 0x53, 0x44, 0x20, 0x50, 0x54, 0x52, 0x20, 225, 0,
         0, 0, 0, 0, 0, 0, 0, 0, 0, 0].getD a 0) 0 (rd32 (fun a =>
        [0x52, 0x53, 0x44, 0x20, 0x50, 0x54, 0x52, 0x20, 225, 0,
         0, 0, 0, 0, 0, 0, 0, 0, 0, 0].getD a 0) (0 + 20)) = 0))) :=
  (copy_acpi_rsdp_registration (fun a =>
        [0x52, 0x53, 0x44, 0x20, 0x50, 0x54, 0x52, 0x20, 225, 0,
         0, 0, 0, 0, 0, 0, 0, 0, 0, 0].getD a 0) 0 50 (by decide)).1

/-! ## `smbios_get_tables` (C8)

The 3.0 entry point stores `structure_table_max_size` (u32) at offset 12 and
`structure_table_address` (u64) at offset 16; the 2.1 entry point stores
`structure_table_length` (u16) at offset 22 and `structure_table_address`
(u32) at offset 24.  `s30` and `s21` are the registration slots. -/

def smbios_get_tables (m : Nat → Nat) (s30 s21 : Option Nat) : Option (Nat × Nat) :=
  let from30 : Option (Nat × Nat) :=
    match s30 with
    | some a =>
      if rd64 m (a + 16) % 2 ^ 32 = rd64 m (a + 16)
      then some (rd64 m (a + 16) % 2 ^ 32, rd32 m (a + 12))
      else none
    | none => none
  match from30 with
  | some r => some r
  | none =>
    match s21 with
    | some b => some (rd32 m (b + 24), rd16 m (b + 22))
    | none => none

/-- C8: `smbios_get_tables` returns the 3.0 structure-table address/max-size
when a 3.0 entry point is registered and its 64-bit address fits in 32 bits;
when the 3.0 slot is empty or the address does not fit, it behaves as if the
3.0 slot were absent, falling back to the 2.1 slot's address/length, and
returns `none` when neither slot is usable. -/
theorem smbios_get_tables_narrowing (m : Nat → Nat) (a b : Nat) (s21 : Option Nat) :
    (rd64 m (a + 16) < 2 ^ 32 →
      smbios_get_tables m (some a) s21 = some (rd64 m (a + 16), rd32 m (a + 12)))
    ∧ (2 ^ 32 ≤ rd64 m (a + 16) →
      smbios_get_tables m (some a) s21 = smbios_get_tables m none s21)
    ∧ smbios_get_tables m none (some b) = some (rd32 m (b + 24), rd16 m (b + 22))
    ∧ smbios_get_tables m none none = none := by
  refine ⟨fun hlt => ?_, fun hge => ?_, rfl, rfl⟩
  · simp only [smbios_get_tables]
    rw [Nat.mod_eq_of_lt hlt, if_pos rfl]
  · simp only [smbios_get_tables]
    rw [if_neg (by have := Nat.mod_lt (rd64 m (a + 16)) (y := 2 ^ 32) (by omega); omega)]

theorem smbios_get_tables_narrowing_witness :
    smbios_get_tables (fun _ => 0) (some 1) (some 40) = some (0, 0)
    ∧ smbios_get_tables (fun _ => 255) (some 1) (some 40) =
        smbios_get_tables (fun _ => 255) none (some 40) := by
  refine ⟨(smbios_get_tables_narrowing (fun _ => 0) 1 40 (some 40)).1 (by decide),
    (smbios_get_tables_narrowing (fun _ => 255) 1 40 (some 40)).2.1 (by decide)⟩

/-! ## ACPI reset register (C9) -/

/-- `struct acpi_20_generic_address` (fields as in `std/acpi.h`). -/
structure acpi_20_generic_address where
  address_space_id : Nat
  register_bit_width : Nat
  register_bit_offset : Nat
  access_size : Nat
  address : Nat
deriving DecidableEq

/-- The two file-scope statics `acpi_reset_reg` / `acpi_reset_val`. -/
structure ResetRegState where
  acpi_reset_reg : acpi_20_generic_address
  acpi_reset_val : Nat
deriving DecidableEq

/-- C statics are zero-initialized. -/
def initResetState : ResetRegState := ⟨⟨0, 0, 0, 0, 0⟩, 0⟩

/-- `acpi_set_reset_reg`: reject a null register, an address-space id above
2, a bit width other than 8, or a non-zero bit offset. -/
def acpi_set_reset_reg (st : ResetRegState) (reg : Option acpi_20_generic_address)
    (val : Nat) : ResetRegState :=
  match reg with
  | none => st
  | some r =>
    if 2 < r.address_space_id ∨ r.register_bit_width ≠ 8 ∨ r.register_bit_offset ≠ 0
    then st
    else ⟨r, val⟩

/-- Modelled from the spec: `pci_to_bdf` lives in `hw/pci.h`, outside this
repository; the spec describes the PCI path as a write to a configuration
register for a bus/device/function decoded from the address field
(`(bus << 8) | (dev << 3) | fn`). -/
def pci_to_bdf (bus dev fn : Nat) : Nat := (bus <<< 8) ||| (dev <<< 3) ||| fn

/-- `acpi_ga_to_bdf(addr)`: bus 0, device from bits 32-47, function from
bits 16-31. -/
def acpi_ga_to_bdf (addr : Nat) : Nat :=
  pci_to_bdf 0 (addr / 2 ^ 32 % 2 ^ 16) (addr / 2 ^ 16 % 2 ^ 16)

/-- The single byte-write `acpi_reboot` can perform, by destination kind. -/
inductive ResetWrite where
  | toMem (addr val : Nat)
  | toIo (port val : Nat)
  | toPci (bdf offset val : Nat)
deriving DecidableEq

/-- `acpi_reboot`: no-op unless the stored register's bit width is exactly 8
(the `acpi_set_reset_reg` sanity marker); otherwise dispatch on the stored
address-space id.  `writeb` takes a `(u32)` pointer, `outb` a u16 port, and
the PCI path uses the low 16 address bits as the register offset. -/
def acpi_reboot (st : ResetRegState) : Option ResetWrite :=
  if st.acpi_reset_reg.register_bit_width ≠ 8 then none
  else
    match st.acpi_reset_reg.address_space_id with
    | 0 => some (.toMem (st.acpi_reset_reg.address % 2 ^ 32) st.acpi_reset_val)
    | 1 => some (.toIo (st.acpi_reset_reg.address % 2 ^ 16) st.acpi_reset_val)
    | 2 => some (.toPci (acpi_ga_to_bdf st.acpi_reset_reg.address)
        (st.acpi_reset_reg.address % 2 ^ 16) st.acpi_reset_val)
    | _ + 3 => none

/-- Does `acpi_set_reset_reg` reject this call? -/
def resetRegRejected (reg : Option acpi_20_generic_address) : Bool :=
  match reg with
  | none => true
  | some r =>
    decide (2 < r.address_space_id ∨ r.register_bit_width ≠ 8 ∨ r.register_bit_offset ≠ 0)

theorem acpi_set_reset_reg_rejected (st : ResetRegState)
    (reg : Option acpi_20_generic_address) (val : Nat)
    (h : resetRegRejected reg = true) : acpi_set_reset_reg st reg val = st := by
  cases reg with
  | none => rfl
  | some r =>
    have h2 : decide (2 < r.address_space_id ∨ r.register_bit_width ≠ 8 ∨
        r.register_bit_offset ≠ 0) = true := h
    show (if 2 < r.address_space_id ∨ r.register_bit_width ≠ 8 ∨
        r.register_bit_offset ≠ 0 then st else ⟨r, val⟩) = st
    rw [if_pos (of_decide_eq_true h2)]

/-- C9: every rejected call leaves the stored reset descriptor unchanged; if
every call so far was rejected the state is still the zero-initialized one
and `acpi_reboot` is a no-op; and whenever `acpi_reboot` does write, it
writes through exactly one of the three paths (memory, I/O port, PCI
config) selected by the stored address-space id, which is in {0,1,2}. -/
theorem acpi_reset_reg_paths :
    (∀ (st : ResetRegState) (reg : Option acpi_20_generic_address) (val : Nat),
        resetRegRejected reg = true → acpi_set_reset_reg st reg val = st)
    ∧ (∀ calls : List (Option acpi_20_generic_address × Nat),
        (∀ c ∈ calls, resetRegRejected c.1 = true) →
        calls.foldl (fun st c => acpi_set_reset_reg st c.1 c.2) initResetState
            = initResetState
          ∧ acpi_reboot (calls.foldl (fun st c => acpi_set_reset_reg st c.1 c.2)
              initResetState) = none)
    ∧ (∀ (st : ResetRegState) (w : ResetWrite), acpi_reboot st = some w →
        (st.acpi_reset_reg.address_space_id = 0 ∧
          w = ResetWrite.toMem (st.acpi_reset_reg.address % 2 ^ 32) st.acpi_reset_val) ∨
        (st.acpi_reset_reg.address_space_id = 1 ∧
          w = ResetWrite.toIo (st.acpi_reset_reg.address % 2 ^ 16) st.acpi_reset_val) ∨
        (st.acpi_reset_reg.address_space_id = 2 ∧
          w = ResetWrite.toPci (acpi_ga_to_bdf st.acpi_reset_reg.address)
            (st.acpi_reset_reg.address % 2 ^ 16) st.acpi_reset_val)) := by
  have hfold : ∀ calls : List (Option acpi_20_generic_address × Nat),
      (∀ c ∈ calls, resetRegRejected c.1 = true) →
      calls.foldl (fun st c => acpi_set_reset_reg st c.1 c.2) initResetState
        = initResetState := by
    intro calls
    induction calls with
    | nil => intro _; rfl
    | cons c rest ih =>
      intro hall
      rw [List.foldl_cons,
        acpi_set_reset_reg_rejected initResetState c.1 c.2 (hall c (by simp))]
      exact ih (fun x hx => hall x (by simp [hx]))
  refine ⟨acpi_set_reset_reg_rejected, fun calls hall => ⟨hfold calls hall, ?_⟩,
    fun st w h => ?_⟩
  · rw [hfold calls hall]
    decide
  · unfold acpi_reboot at h
    by_cases hw : st.acpi_reset_reg.register_bit_width ≠ 8
    · rw [if_pos hw] at h
      exact absurd h (by simp)
    · rw [if_neg hw] at h
      cases hid : st.acpi_reset_reg.address_space_id with
      | zero =>
        rw [hid] at h
        exact Or.inl ⟨rfl, (Option.some.inj h).symm⟩
      | succ n =>
        cases n with
        | zero =>
          rw [hid] at h
          exact Or.inr (Or.inl ⟨rfl, (Option.some.inj h).symm⟩)
        | succ n2 =>
          cases n2 with
          | zero =>
            rw [hid] at h
            exact Or.inr (Or.inr ⟨rfl, (Option.some.inj h).symm⟩)
          | succ n3 =>
            rw [hid] at h
            exact absurd h (by simp)

theorem acpi_reset_reg_paths_witness :
    acpi_set_reset_reg initResetState (some ⟨3, 8, 0, 0, 5⟩) 7 = initResetState
    ∧ ([(some (⟨3, 8, 0, 0, 5⟩ : acpi_20_generic_address), 7), (none, 2)].foldl
        (fun st c => acpi_set_reset_reg st c.1 c.2) initResetState = initResetState
      ∧ acpi_reboot ([(some (⟨3, 8, 0, 0, 5⟩ : acpi_20_generic_address), 7),
          (none, 2)].foldl
        (fun st c => acpi_set_reset_reg st c.1 c.2) initResetState) = none)
    ∧ ((1 : Nat) = 1 ∧
        ResetWrite.toIo (65543 % 2 ^ 16) 9 = ResetWrite.toIo (65543 % 2 ^ 16) 9 ∨
       False ∨ False) := by
  have h3 := acpi_reset_reg_paths.2.2 ⟨⟨1, 8, 0, 0, 65543⟩, 9⟩
    (ResetWrite.toIo (65543 % 2 ^ 16) 9) (by decide)
  refine ⟨acpi_reset_reg_paths.1 initResetState (some ⟨3, 8, 0, 0, 5⟩) 7 (by decide),
    acpi_reset_reg_paths.2.1 [(some ⟨3, 8, 0, 0, 5⟩, 7), (none, 2)] (by decide),
    ?_⟩
  rcases h3 with ⟨h, _⟩ | ⟨_, hw⟩ | ⟨h, _⟩
  · exact absurd h (by decide)
  · exact Or.inl ⟨rfl, rfl⟩
  · exact absurd h (by decide)

/-! ## `find_acpi_table` (C4)

RSDP layout: signature u64 at 0, `rsdt_physical_address` u32 at 16,
`xsdt_physical_address` u64 at 24.  RSDT/XSDT: signature u32 at 0, `length`
u32 at 4, 36-byte `struct acpi_table_header`, then the pointer array.  The
C loop guard `&tbl->table_offset_entry[i] < (void*)tbl + tbl->length`
cancels the common base, giving `36 + width*i < length`. -/

/-- `"XSDT"` as a little-endian u32. -/
def XSDT_SIGNATURE : Nat := 0x54445358

/-- `"RSDT"` as a little-endian u32. -/
def RSDT_SIGNATURE : Nat := 0x54445352

/-- The XSDT entry loop of `find_acpi_table`, with fuel (the loop runs at
most `length` times). -/
def xsdtScan (m : Nat → Nat) (x sig : Nat) : Nat → Nat → Option Nat
  | 0, _ => none
  | f + 1, i =>
    if 36 + 8 * i < rd32 m (x + 4) then
      if 2 ^ 32 ≤ rd64 m (x + 36 + 8 * i) then xsdtScan m x sig f (i + 1)
      else if rd64 m (x + 36 + 8 * i) = 0 ∨ rd32 m (rd64 m (x + 36 + 8 * i)) ≠ sig then
        xsdtScan m x sig f (i + 1)
      else some (rd64 m (x + 36 + 8 * i))
    else none

/-- The RSDT entry loop of `find_acpi_table`, with fuel. -/
def rsdtScan (m : Nat → Nat) (r sig : Nat) : Nat → Nat → Option Nat
  | 0, _ => none
  | f + 1, i =>
    if 36 + 4 * i < rd32 m (r + 4) then
      if rd32 m (r + 36 + 4 * i) = 0 ∨ rd32 m (rd32 m (r + 36 + 4 * i)) ≠ sig then
        rsdtScan m r sig f (i + 1)
      else some (rd32 m (r + 36 + 4 * i))
    else none

/-- `find_acpi_table(signature)` with the registered RSDP address passed
explicitly (`rsdp = 0`: nothing registered). -/
def find_acpi_table (m : Nat → Nat) (rsdp sig : Nat) : Option Nat :=
  if rsdp = 0 ∨ rd64 m rsdp ≠ RSDP_SIGNATURE then none
  else
    let rsdt := rd32 m (rsdp + 16)
    let xsdt := if 2 ^ 32 ≤ rd64 m (rsdp + 24) then 0 else rd64 m (rsdp + 24)
    let xres : Option Nat :=
      if xsdt ≠ 0 ∧ rd32 m xsdt = XSDT_SIGNATURE
      then xsdtScan m xsdt sig (rd32 m (xsdt + 4) + 1) 0
      else none
    match xres with
    | some t => some t
    | none =>
      if rsdt ≠ 0 ∧ rd32 m rsdt = RSDT_SIGNATURE
      then rsdtScan m rsdt sig (rd32 m (rsdt + 4) + 1) 0
      else none

/-! ### Specification-side view: the loops are first-match searches over a
length-bounded entry list -/

/-- Number of XSDT entry slots whose start lies before `length`. -/
def xsdtEntryCount (len : Nat) : Nat := (len - 36 + 7) / 8

/-- Number of RSDT entry slots whose start lies before `length`. -/
def rsdtEntryCount (len : Nat) : Nat := (len - 36 + 3) / 4

/-- The XSDT's 64-bit entry array, bounded by its declared length. -/
def xsdtEntries (m : Nat → Nat) (x : Nat) : List Nat :=
  (List.range (xsdtEntryCount (rd32 m (x + 4)))).map (fun i => rd64 m (x + 36 + 8 * i))

/-- The RSDT's 32-bit entry array, bounded by its declared length. -/
def rsdtEntries (m : Nat → Nat) (r : Nat) : List Nat :=
  (List.range (rsdtEntryCount (rd32 m (r + 4)))).map (fun i => rd32 m (r + 36 + 4 * i))

/-- An XSDT entry is usable iff non-null, below 4 GiB, and its table's own
signature matches. -/
def xsdtGood (m : Nat → Nat) (sig en : Nat) : Bool :=
  decide (en ≠ 0 ∧ en < 2 ^ 32 ∧ rd32 m en = sig)

/-- An RSDT entry is usable iff non-null and its table's signature matches. -/
def rsdtGood (m : Nat → Nat) (sig en : Nat) : Bool :=
  decide (en ≠ 0 ∧ rd32 m en = sig)

/-- The RSDT fallback of the resolver, phrased as a first-match search. -/
def rsdtFallback (m : Nat → Nat) (r sig : Nat) : Option Nat :=
  if r ≠ 0 ∧ rd32 m r = RSDT_SIGNATURE
  then (rsdtEntries m r).find? (rsdtGood m sig)
  else none

theorem xsdtScan_eq_find (m : Nat → Nat) (x sig : Nat) :
    ∀ f i, xsdtEntryCount (rd32 m (x + 4)) ≤ i + f →
      xsdtScan m x sig f i =
        (((List.range (xsdtEntryCount (rd32 m (x + 4)) - i)).map
          (fun j => rd64 m (x + 36 + 8 * (i + j)))).find? (xsdtGood m sig)) := by
  intro f
  induction f with
  | zero =>
    intro i hf
    have hz : xsdtEntryCount (rd32 m (x + 4)) - i = 0 := by omega
    rw [hz]
    rfl
  | succ k ih =>
    intro i hf
    by_cases hin : 36 + 8 * i < rd32 m (x + 4)
    · have hlt : i < xsdtEntryCount (rd32 m (x + 4)) := by
        unfold xsdtEntryCount
        omega
      have hdec : xsdtEntryCount (rd32 m (x + 4)) - i =
          (xsdtEntryCount (rd32 m (x + 4)) - (i + 1)) + 1 := by omega
      rw [hdec, List.range_succ_eq_map, List.map_cons, List.map_map]
      have hmap : ((fun j => rd64 m (x + 36 + 8 * (i + j))) ∘ Nat.succ) =
          (fun j => rd64 m (x + 36 + 8 * ((i + 1) + j))) := by
        funext j
        show rd64 m (x + 36 + 8 * (i + (j + 1))) = rd64 m (x + 36 + 8 * ((i + 1) + j))
        have : i + (j + 1) = (i + 1) + j := by omega
        rw [this]
      rw [hmap]
      show (if 36 + 8 * i < rd32 m (x + 4) then _ else none) = _
      rw [if_pos hin]
      by_cases h4g : 2 ^ 32 ≤ rd64 m (x + 36 + 8 * i)
      · rw [if_pos h4g, List.find?_cons_of_neg _ (by
          unfold xsdtGood
          simp only [Nat.add_zero, decide_eq_true_eq]
          intro hc
          omega), ih (i + 1) (by omega)]
      · rw [if_neg h4g]
        by_cases hskip : rd64 m (x + 36 + 8 * i) = 0 ∨
            rd32 m (rd64 m (x + 36 + 8 * i)) ≠ sig
        · rw [if_pos hskip, List.find?_cons_of_neg _ (by
            unfold xsdtGood
            simp only [Nat.add_zero, decide_eq_true_eq]
            intro hc
            rcases hskip with h | h
            · exact hc.1 h
            · exact h hc.2.2), ih (i + 1) (by omega)]
        · rw [if_neg hskip, List.find?_cons_of_pos _ (by
            unfold xsdtGood
            simp only [Nat.add_zero, decide_eq_true_eq]
            exact ⟨fun h => hskip (Or.inl h), by omega,
              of_not_not (fun h => hskip (Or.inr h))⟩)]
          simp
    · have hge : xsdtEntryCount (rd32 m (x + 4)) ≤ i := by
        unfold xsdtEntryCount
        omega
      have hz : xsdtEntryCount (rd32 m (x + 4)) - i = 0 := by omega
      rw [hz]
      show (if 36 + 8 * i < rd32 m (x + 4) then _ else none) = _
      rw [if_neg hin]
      rfl

theorem rsdtScan_eq_find (m : Nat → Nat) (r sig : Nat) :
    ∀ f i, rsdtEntryCount (rd32 m (r + 4)) ≤ i + f →
      rsdtScan m r sig f i =
        (((List.range (rsdtEntryCount (rd32 m (r + 4)) - i)).map
          (fun j => rd32 m (r + 36 + 4 * (i + j)))).find? (rsdtGood m sig)) := by
  intro f
  induction f with
  | zero =>
    intro i hf
    have hz : rsdtEntryCount (rd32 m (r + 4)) - i = 0 := by omega
    rw [hz]
    rfl
  | succ k ih =>
    intro i hf
    by_cases hin : 36 + 4 * i < rd32 m (r + 4)
    · have hlt : i < rsdtEntryCount (rd32 m (r + 4)) := by
        unfold rsdtEntryCount
        omega
      have hdec : rsdtEntryCount (rd32 m (r + 4)) - i =
          (rsdtEntryCount (rd32 m (r + 4)) - (i + 1)) + 1 := by omega
      rw [hdec, List.range_succ_eq_map, List.map_cons, List.map_map]
      have hmap : ((fun j => rd32 m (r + 36 + 4 * (i + j))) ∘ Nat.succ) =
          (fun j => rd32 m (r + 36 + 4 * ((i + 1) + j))) := by
        funext j
        show rd32 m (r + 36 + 4 * (i + (j + 1))) = rd32 m (r + 36 + 4 * ((i + 1) + j))
        have : i + (j + 1) = (i + 1) + j := by omega
        rw [this]
      rw [hmap]
      show (if 36 + 4 * i < rd32 m (r + 4) then _ else none) = _
      rw [if_pos hin]
      by_cases hskip : rd32 m (r + 36 + 4 * i) = 0 ∨
          rd32 m (rd32 m (r + 36 + 4 * i)) ≠ sig
      · rw [if_pos hskip, List.find?_cons_of_neg _ (by
          unfold rsdtGood
          simp only [Nat.add_zero, decide_eq_true_eq]
          intro hc
          rcases hskip with h | h
          · exact hc.1 h
          · exact h hc.2), ih (i + 1) (by omega)]
      · rw [if_neg hskip, List.find?_cons_of_pos _ (by
          unfold rsdtGood
          simp only [Nat.add_zero, decide_eq_true_eq]
          exact ⟨fun h => hskip (Or.inl h),
            of_not_not (fun h => hskip (Or.inr h))⟩)]
        simp
    · have hz : rsdtEntryCount (rd32 m (r + 4)) - i = 0 := by
        unfold rsdtEntryCount at hf ⊢
        omega
      rw [hz]
      show (if 36 + 4 * i < rd32 m (r + 4) then _ else none) = _
      rw [if_neg hin]
      rfl

/-- C4: `find_acpi_table` returns `none` with no registered RSDP; with a
registered, signature-valid RSDP and an XSDT pointer that is non-null, below
4 GiB and signature-valid, it returns the first usable XSDT entry (non-null,
below 4 GiB, matching signature) from the length-bounded 64-bit entry array,
falling back to the RSDT search when no XSDT entry matches; when the XSDT is
absent or invalid it goes straight to the RSDT search, which returns the
first non-null matching 32-bit entry or `none`. -/
theorem find_acpi_table_resolution (m : Nat → Nat) (rsdp sig : Nat) :
    (rsdp = 0 → find_acpi_table m rsdp sig = none)
    ∧ (∀ x, rsdp ≠ 0 → rd64 m rsdp = RSDP_SIGNATURE →
        x = rd64 m (rsdp + 24) → x < 2 ^ 32 → x ≠ 0 → rd32 m x = XSDT_SIGNATURE →
        find_acpi_table m rsdp sig =
          (((xsdtEntries m x).find? (xsdtGood m sig)).elim
            (rsdtFallback m (rd32 m (rsdp + 16)) sig) some))
    ∧ (rsdp ≠ 0 → rd64 m rsdp = RSDP_SIGNATURE →
        (2 ^ 32 ≤ rd64 m (rsdp + 24) ∨ rd64 m (rsdp + 24) = 0 ∨
          rd32 m (rd64 m (rsdp + 24)) ≠ XSDT_SIGNATURE) →
        find_acpi_table m rsdp sig = rsdtFallback m (rd32 m (rsdp + 16)) sig) := by
  have hrsdtrun : ∀ r : Nat,
      (if r ≠ 0 ∧ rd32 m r = RSDT_SIGNATURE
       then rsdtScan m r sig (rd32 m (r + 4) + 1) 0
       else none) = rsdtFallback m r sig := by
    intro r
    unfold rsdtFallback
    by_cases hr : r ≠ 0 ∧ rd32 m r = RSDT_SIGNATURE
    · rw [if_pos hr, if_pos hr,
        rsdtScan_eq_find m r sig (rd32 m (r + 4) + 1) 0 (by unfold rsdtEntryCount; omega)]
      unfold rsdtEntries
      rw [Nat.sub_zero]
      have hfn : (fun j => rd32 m (r + 36 + 4 * (0 + j))) =
          (fun i => rd32 m (r + 36 + 4 * i)) :=
        funext (fun j => by rw [Nat.zero_add])
      rw [hfn]
    · rw [if_neg hr, if_neg hr]
  refine ⟨fun h0 => by unfold find_acpi_table; rw [if_pos (Or.inl h0)],
    fun x hne hsig hx hlt hxne hxsig => ?_, fun hne hsig hbad => ?_⟩
  · unfold find_acpi_table
    rw [if_neg (by simp [hne, hsig])]
    have hxv : (if 2 ^ 32 ≤ rd64 m (rsdp + 24) then 0 else rd64 m (rsdp + 24)) = x := by
      rw [if_neg (by omega), hx]
    simp only [hxv]
    rw [if_pos ⟨hxne, hxsig⟩,
      xsdtScan_eq_find m x sig (rd32 m (x + 4) + 1) 0 (by unfold xsdtEntryCount; omega)]
    have hentry : ((List.range (xsdtEntryCount (rd32 m (x + 4)) - 0)).map
        (fun j => rd64 m (x + 36 + 8 * (0 + j)))).find? (xsdtGood m sig) =
        (xsdtEntries m x).find? (xsdtGood m sig) := by
      unfold xsdtEntries
      rw [Nat.sub_zero]
      have hfn : (fun j => rd64 m (x + 36 + 8 * (0 + j))) =
          (fun i => rd64 m (x + 36 + 8 * i)) :=
        funext (fun j => by rw [Nat.zero_add])
      rw [hfn]
    rw [hentry]
    cases hfind : (xsdtEntries m x).find? (xsdtGood m sig) with
    | some t => rfl
    | none =>
      show (if rd32 m (rsdp + 16) ≠ 0 ∧ rd32 m (rd32 m (rsdp + 16)) = RSDT_SIGNATURE
        then rsdtScan m (rd32 m (rsdp + 16)) sig (rd32 m (rd32 m (rsdp + 16) + 4) + 1) 0
        else none) = _
      rw [hrsdtrun (rd32 m (rsdp + 16))]
      rfl
  · unfold find_acpi_table
    rw [if_neg (by simp [hne, hsig])]
    have hxz : (if 2 ^ 32 ≤ rd64 m (rsdp + 24) then 0 else rd64 m (rsdp + 24)) = 0 ∨
        ((if 2 ^ 32 ≤ rd64 m (rsdp + 24) then 0 else rd64 m (rsdp + 24))
          = rd64 m (rsdp + 24) ∧
         rd32 m (rd64 m (rsdp + 24)) ≠ XSDT_SIGNATURE) := by
      by_cases h4 : 2 ^ 32 ≤ rd64 m (rsdp + 24)
      · exact Or.inl (by rw [if_pos h4])
      · rcases hbad with h | h | h
        · omega
        · exact Or.inl (by rw [if_neg h4, h])
        · exact Or.inr ⟨by rw [if_neg h4], h⟩
    have hxres : (if (if 2 ^ 32 ≤ rd64 m (rsdp + 24) then 0 else rd64 m (rsdp + 24)) ≠ 0 ∧
        rd32 m (if 2 ^ 32 ≤ rd64 m (rsdp + 24) then 0 else rd64 m (rsdp + 24))
          = XSDT_SIGNATURE
        then xsdtScan m (if 2 ^ 32 ≤ rd64 m (rsdp + 24) then 0 else rd64 m (rsdp + 24))
          sig (rd32 m ((if 2 ^ 32 ≤ rd64 m (rsdp + 24) then 0
            else rd64 m (rsdp + 24)) + 4) + 1) 0
        else none) = none := by
      rcases hxz with h | ⟨heq, h⟩
      · rw [if_neg (by rw [h]; simp)]
      · rw [if_neg (by rw [heq]; intro hc; exact h hc.2)]
    simp only [hxres]
    show (if rd32 m (rsdp + 16) ≠ 0 ∧ rd32 m (rd32 m (rsdp + 16)) = RSDT_SIGNATURE
      then rsdtScan m (rd32 m (rsdp + 16)) sig (rd32 m (rd32 m (rsdp + 16) + 4) + 1) 0
      else none) = _
    exact hrsdtrun (rd32 m (rsdp + 16))

/-- A concrete ACPI chain: RSDP at 64 (RSDT pointer 128, XSDT pointer 192),
XSDT at 192 with declared length 52 (two entries: a null one and table 300),
and a `"FACP"` table at 300. -/
def acpiChainMem : Nat → Nat :=
  wrBytes (wrBytes (wrBytes (fun _ => 0) 64
    [0x52, 0x53, 0x44, 0x20, 0x50, 0x54, 0x52, 0x20, 0, 0, 0, 0, 0, 0, 0, 0,
     128, 0, 0, 0, 0, 0, 0, 0, 192, 0, 0, 0, 0, 0, 0, 0]) 192
    [0x58, 0x53, 0x44, 0x54, 52, 0, 0, 0, 0, 0, 0, 0, 0, 0, 0, 0,
     0, 0, 0, 0, 0, 0, 0, 0, 0, 0, 0, 0, 0, 0, 0, 0,
     0, 0, 0, 0, 0, 0, 0, 0, 0, 0, 0, 0, 44, 1, 0, 0, 0, 0, 0, 0]) 300
    [0x46, 0x41, 0x43, 0x50]

theorem find_acpi_table_resolution_witness :
    find_acpi_table acpiChainMem 64 0x50434146 =
      (((xsdtEntries acpiChainMem 192).find? (xsdtGood acpiChainMem 0x50434146)).elim
        (rsdtFallback acpiChainMem (rd32 acpiChainMem (64 + 16)) 0x50434146) some) :=
  (find_acpi_table_resolution acpiChainMem 64 0x50434146).2.1 192 (by decide)
    (by decide) (by decide) (by decide) (by decide) (by decide)

/-! ## UUID display (C7)

`struct smbios_type_1` puts the 16-byte `uuid` at offset 8, so
`minlen = offsetof(uuid) + sizeof(uuid) = 24`.  The entry points store the
version as: 2.1 major at offset 6 / minor at 7; 3.0 major at 7 / minor at 8. -/

def smbios_major_version (m : Nat → Nat) (s30 s21 : Option Nat) : Nat :=
  match s30 with
  | some a => rd8 m (a + 7)
  | none =>
    match s21 with
    | some b => rd8 m (b + 6)
    | none => 0

def smbios_minor_version (m : Nat → Nat) (s30 s21 : Option Nat) : Nat :=
  match s30 with
  | some a => rd8 m (a + 8)
  | none =>
    match s21 with
    | some b => rd8 m (b + 7)
    | none => 0

/-- One lowercase hex digit, as printed by `printf("%02x", ...)`. -/
def hexChar (n : Nat) : Char := if n < 10 then Char.ofNat (48 + n) else Char.ofNat (87 + n)

/-- Two lowercase hex digits of a byte. -/
def hex2 (b : Nat) : List Char := [hexChar (b / 16 % 16), hexChar (b % 16)]

/-- The byte print order of the `printf` in the ≥ 2.6 branch: the first
three UUID fields byte-reversed (little-endian). -/
def uuidLE (u : Nat → Nat) : List Nat :=
  [u 3, u 2, u 1, u 0, u 5, u 4, u 7, u 6, u 8, u 9, u 10, u 11, u 12, u 13, u 14, u 15]

/-- The byte print order of the `printf` in the < 2.6 branch (big-endian). -/
def uuidBE (u : Nat → Nat) : List Nat :=
  [u 0, u 1, u 2, u 3, u 4, u 5, u 6, u 7, u 8, u 9, u 10, u 11, u 12, u 13, u 14, u 15]

/-- Render 16 bytes in the `xxxxxxxx-xxxx-xxxx-xxxx-xxxxxxxxxxxx` format
(45 is the dash). -/
def uuidStr (l : List Nat) : String :=
  String.mk ((l.take 4).flatMap hex2 ++ Char.ofNat 45 :: ((l.drop 4).take 2).flatMap hex2
    ++ Char.ofNat 45 :: ((l.drop 6).take 2).flatMap hex2
    ++ Char.ofNat 45 :: ((l.drop 8).take 2).flatMap hex2
    ++ Char.ofNat 45 :: (l.drop 10).flatMap hex2)

/-- The structure walk of `display_uuid`, fuelled (each step advances the
iterator, which moves strictly forward, so `tlen + 1` steps suffice).
Returns the printed UUID string, or `none` when nothing is printed. -/
def display_uuid_loop (m : Nat → Nat) (tb tlen maj minr : Nat) :
    Nat → Option Nat → Option String
  | _, none => none
  | 0, some _ => none
  | f + 1, some p =>
    if rd8 m p = 1 ∧ 24 ≤ rd8 m (p + 1) then
      if (List.range 16).all (fun i => rd8 m (p + 8 + i) == 0) then none
      else if 2 < maj ∨ (maj = 2 ∧ 6 ≤ minr) then
        some (uuidStr (uuidLE (fun i => rd8 m (p + 8 + i))))
      else some (uuidStr (uuidBE (fun i => rd8 m (p + 8 + i))))
    else display_uuid_loop m tb tlen maj minr f (smbios_next m tb tlen (some p))

/-- `display_uuid` over the registration slots. -/
def display_uuid (m : Nat → Nat) (s30 s21 : Option Nat) : Option String :=
  let tl := (smbios_get_tables m s30 s21).getD (0, 0)
  display_uuid_loop m tl.1 tl.2 (smbios_major_version m s30 s21)
    (smbios_minor_version m s30 s21) (tl.2 + 1) (smbios_next m tl.1 tl.2 none)

theorem display_uuid_loop_found (m : Nat → Nat) (tb tlen maj minr f p : Nat)
    (ht : rd8 m p = 1 ∧ 24 ≤ rd8 m (p + 1)) :
    display_uuid_loop m tb tlen maj minr (f + 1) (some p) =
      if (List.range 16).all (fun i => rd8 m (p + 8 + i) == 0) then none
      else if 2 < maj ∨ (maj = 2 ∧ 6 ≤ minr) then
        some (uuidStr (uuidLE (fun i => rd8 m (p + 8 + i))))
      else some (uuidStr (uuidBE (fun i => rd8 m (p + 8 + i)))) := by
  show (if rd8 m p = 1 ∧ 24 ≤ rd8 m (p + 1) then _ else _) = _
  rw [if_pos ht]

/-- C7: with a registered 2.1 entry point whose structure table starts with a
type-1 structure of declared length ≥ 24 (covering the UUID), `display_uuid`
prints nothing for an all-zero UUID, and otherwise renders the first three
UUID fields byte-reversed (little-endian) exactly when major.minor ≥ 2.6 and
big-endian otherwise; in particular the bytes
`00 11 22 33 44 55 66 77 88 99 aa bb cc dd ee ff` render as
`33221100-5544-7766-8899-aabbccddeeff` in the ≥ 2.6 order and as
`00112233-4455-6677-8899-aabbccddeeff` in the < 2.6 order. -/
theorem display_uuid_version_ordering (m : Nat → Nat) (a : Nat)
    (htb : rd32 m (a + 24) ≠ 0)
    (hlen : 4 < rd16 m (a + 22))
    (hhl : rd8 m (rd32 m (a + 24) + 1) < rd16 m (a + 22))
    (htype : rd8 m (rd32 m (a + 24)) = 1)
    (hcov : 24 ≤ rd8 m (rd32 m (a + 24) + 1)) :
    (display_uuid m none (some a) =
      (if (List.range 16).all (fun i => rd8 m (rd32 m (a + 24) + 8 + i) == 0) then none
       else if 2 < rd8 m (a + 6) ∨ (rd8 m (a + 6) = 2 ∧ 6 ≤ rd8 m (a + 7)) then
         some (uuidStr (uuidLE (fun i => rd8 m (rd32 m (a + 24) + 8 + i))))
       else some (uuidStr (uuidBE (fun i => rd8 m (rd32 m (a + 24) + 8 + i))))))
    ∧ uuidStr (uuidLE (fun i =>
        [0x00, 0x11, 0x22, 0x33, 0x44, 0x55, 0x66, 0x77,
         0x88, 0x99, 0xAA, 0xBB, 0xCC, 0xDD, 0xEE, 0xFF].getD i 0)) =
        "33221100-5544-7766-8899-aabbccddeeff"
    ∧ uuidStr (uuidBE (fun i =>
        [0x00, 0x11, 0x22, 0x33, 0x44, 0x55, 0x66, 0x77,
         0x88, 0x99, 0xAA, 0xBB, 0xCC, 0xDD, 0xEE, 0xFF].getD i 0)) =
        "00112233-4455-6677-8899-aabbccddeeff" := by
  refine ⟨?_, by decide, by decide⟩
  have hfirst : smbios_next m (rd32 m (a + 24)) (rd16 m (a + 22)) none =
      some (rd32 m (a + 24)) := by
    rw [smbios_next_start_eq m _ _ htb, if_pos ⟨hlen, hhl⟩]
  have hstart : display_uuid m none (some a) =
      display_uuid_loop m (rd32 m (a + 24)) (rd16 m (a + 22)) (rd8 m (a + 6))
        (rd8 m (a + 7)) (rd16 m (a + 22) + 1)
        (smbios_next m (rd32 m (a + 24)) (rd16 m (a + 22)) none) := rfl
  rw [hstart, hfirst]
  exact display_uuid_loop_found m (rd32 m (a + 24)) (rd16 m (a + 22))
    (rd8 m (a + 6)) (rd8 m (a + 7)) (rd16 m (a + 22)) (rd32 m (a + 24))
    ⟨htype, hcov⟩

/-- A 2.1 entry point at 1 (version `maj.6`, structure table 40, length 32)
and a type-1 structure at 40 with the claim's 16 UUID bytes. -/
def uuidScenarioMem (minorv : Nat) : Nat → Nat :=
  wrBytes (wrBytes (fun _ => 0) 1
    [0, 0, 0, 0, 0, 0, 2, minorv, 0, 0, 0, 0, 0, 0, 0, 0,
     0, 0, 0, 0, 0, 0, 32, 0, 40, 0, 0, 0, 0, 0, 0]) 40
    [1, 27, 0, 0, 0, 0, 0, 0,
     0x00, 0x11, 0x22, 0x33, 0x44, 0x55, 0x66, 0x77,
     0x88, 0x99, 0xAA, 0xBB, 0xCC, 0xDD, 0xEE, 0xFF, 0, 0, 0]

theorem display_uuid_version_ordering_witness :
    (display_uuid (uuidScenarioMem 6) none (some 1) =
      (if (List.range 16).all
          (fun i => rd8 (uuidScenarioMem 6) (rd32 (uuidScenarioMem 6) (1 + 24) + 8 + i)
            == 0) then none
       else if 2 < rd8 (uuidScenarioMem 6) (1 + 6) ∨
           (rd8 (uuidScenarioMem 6) (1 + 6) = 2 ∧ 6 ≤ rd8 (uuidScenarioMem 6) (1 + 7)) then
         some (uuidStr (uuidLE (fun i =>
           rd8 (uuidScenarioMem 6) (rd32 (uuidScenarioMem 6) (1 + 24) + 8 + i))))
       else some (uuidStr (uuidBE (fun i =>
           rd8 (uuidScenarioMem 6) (rd32 (uuidScenarioMem 6) (1 + 24) + 8 + i))))))
    ∧ (display_uuid (uuidScenarioMem 5) none (some 1) =
      (if (List.range 16).all
          (fun i => rd8 (uuidScenarioMem 5) (rd32 (uuidScenarioMem 5) (1 + 24) + 8 + i)
            == 0) then none
       else if 2 < rd8 (uuidScenarioMem 5) (1 + 6) ∨
           (rd8 (uuidScenarioMem 5) (1 + 6) = 2 ∧ 6 ≤ rd8 (uuidScenarioMem 5) (1 + 7)) then
         some (uuidStr (uuidLE (fun i =>
           rd8 (uuidScenarioMem 5) (rd32 (uuidScenarioMem 5) (1 + 24) + 8 + i))))
       else some (uuidStr (uuidBE (fun i =>
           rd8 (uuidScenarioMem 5) (rd32 (uuidScenarioMem 5) (1 + 24) + 8 + i)))))) :=
  ⟨(display_uuid_version_ordering (uuidScenarioMem 6) 1 (by decide) (by decide)
      (by decide) (by decide) (by decide)).1,
   (display_uuid_version_ordering (uuidScenarioMem 5) 1 (by decide) (by decide)
      (by decide) (by decide) (by decide)).1⟩

/-! ## SMBIOS builder (C6)

`struct smbios_type_0` is 24 bytes: header (type 0 / length 1 / handle 2-3),
`vendor_str` 4, `bios_version_str` 5, `bios_starting_address_segment` 6-7,
`bios_release_date_str` 8, `bios_rom_size` 9, `bios_characteristics` 10-17,
`bios_characteristics_extension_bytes` 18-19, releases 20-23. -/

/-- `BIOS_NAME` = `"DellBIOS"`. -/
def BIOS_NAME : List Nat := [68, 101, 108, 108, 66, 73, 79, 83]

/-- `BIOS_DATE` = `"05/05/2022"`. -/
def BIOS_DATE : List Nat := [48, 53, 47, 48, 53, 47, 50, 48, 50, 50]

/-- `smbios_new_type_0(start, vendor, version, date)`: writes the fixed
24-byte record then the string table, with the `set_str_field_or_skip`
macro expanded at its three call sites exactly as in the C (a string is
appended, and its 1-based index stored, only when `strlen(value)+1 > 1`).
Returns the new memory and the end pointer. -/
def smbios_new_type_0 (m : Nat → Nat) (start : Nat) (vendor version date : List Nat) :
    (Nat → Nat) × Nat :=
  let m1 := wr16 (wr8 (wr8 m start 0) (start + 1) 24) (start + 2) 0
  let e0 := start + 24
  let m2 := if 1 < vendor.length + 1 then wr8 (wrBytes m1 e0 (vendor ++ [0])) (start + 4) 1
            else wr8 m1 (start + 4) 0
  let e1 := if 1 < vendor.length + 1 then e0 + (vendor.length + 1) else e0
  let s1 := if 1 < vendor.length + 1 then 1 else 0
  let m3 := if 1 < version.length + 1 then
              wr8 (wrBytes m2 e1 (version ++ [0])) (start + 5) (s1 + 1)
            else wr8 m2 (start + 5) 0
  let e2 := if 1 < version.length + 1 then e1 + (version.length + 1) else e1
  let s2 := if 1 < version.length + 1 then s1 + 1 else s1
  let m4 := wr16 m3 (start + 6) 0xE800
  let m5 := if 1 < date.length + 1 then wr8 (wrBytes m4 e2 (date ++ [0])) (start + 8) (s2 + 1)
            else wr8 m4 (start + 8) 0
  let e3 := if 1 < date.length + 1 then e2 + (date.length + 1) else e2
  let s3 := if 1 < date.length + 1 then s2 + 1 else s2
  let m6 := wr8 (wrBytes (wr8 m5 (start + 9) 0) (start + 10)
    [0, 0, 0, 0, 0, 0, 0, 0]) (start + 10) 0x08
  let m7 := wr8 (wr8 (wr8 (wr8 (wr8 (wr8 m6 (start + 18) 0) (start + 19) 4)
    (start + 20) 0) (start + 21) 0) (start + 22) 0xFF) (start + 23) 0xFF
  let m8 := wr8 m7 e3 0
  if s3 = 0 then (wr8 m8 (e3 + 1) 0, e3 + 2) else (m8, e3 + 1)

/-- The type-0 scan loop of `smbios_build_tables`, fuelled: does the blob at
`tb` contain a structure of type 0? -/
def findT0 (m : Nat → Nat) (tb tlen : Nat) : Nat → Option Nat → Bool
  | 0, _ => false
  | f + 1, prev =>
    match smbios_next m tb tlen prev with
    | none => false
    | some p => if rd8 m p = 0 then true else findT0 m tb tlen f (some p)

/-- u32 subtraction, for the C expression `0xffff - *length`. -/
def sub32 (a b : Nat) : Nat := (a + 2 ^ 32 - b % 2 ^ 32) % 2 ^ 32

/-- `smbios_build_tables(f_tables, &address, &length, max_structure_size,
number_of_structures)`.  `blob` is the romfile's content (`f_tables->size` =
`blob.length`), `version` the build-time `VERSION` string (a constant not
part of this repository), `qa`/`ta` the allocator's answers for the scratch
and final buffers (0 = allocation failure).  Returns the final memory, the
table address, the final length, and the updated optional outputs. -/
def smbios_build_tables (m : Nat → Nat) (blob version : List Nat) (lengthIn : Nat)
    (maxs nstr : Option Nat) (qa ta : Nat) :
    Option ((Nat → Nat) × Nat × Nat × Option Nat × Option Nat) :=
  if blob.length ≠ lengthIn then none
  else if qa = 0 then none
  else
    let m1 := wrBytes m qa blob
    let need0 : Bool := ! findT0 m1 qa blob.length (blob.length + 1) none
    let t0len := 24 + BIOS_NAME.length + version.length + BIOS_DATE.length + 4
    let res : Bool × Nat × Option Nat × Option Nat :=
      if need0 then
        if t0len > sub32 0xFFFF lengthIn then (false, lengthIn, maxs, nstr)
        else (true, lengthIn + t0len,
          maxs.map (fun mx => if mx < t0len then t0len else mx),
          nstr.map (fun n => (n + 1) % 2 ^ 16))
      else (false, lengthIn, maxs, nstr)
    if ta = 0 then none
    else
      let mt := if res.1 then smbios_new_type_0 m1 ta BIOS_NAME version BIOS_DATE
                else (m1, ta)
      some (memcpyM mt.1 mt.2 qa blob.length, ta, res.2.1, res.2.2.1, res.2.2.2)

/-! ### Specification-side view: the synthesized record as a byte list -/

/-- 1-based string index assigned to the vendor string (0 when absent). -/
def strIdxV (vendor : List Nat) : Nat := if 0 < vendor.length then 1 else 0

/-- String index assigned to the version string (0 when absent). -/
def strIdxVer (vendor version : List Nat) : Nat :=
  if 0 < version.length then strIdxV vendor + 1 else 0

/-- Running string count after vendor and version. -/
def strCntVer (vendor version : List Nat) : Nat :=
  if 0 < version.length then strIdxV vendor + 1 else strIdxV vendor

/-- String index assigned to the release-date string (0 when absent). -/
def strIdxD (vendor version date : List Nat) : Nat :=
  if 0 < date.length then strCntVer vendor version + 1 else 0

/-- Running string count after all three strings. -/
def strCntD (vendor version date : List Nat) : Nat :=
  if 0 < date.length then strCntVer vendor version + 1 else strCntVer vendor version

/-- The byte content `smbios_new_type_0` produces, as a flat list: fixed
24-byte header (string indices assigned in order, 0 for an absent string),
the present strings each with their NUL, the record terminator, and a second
NUL only when no string at all was emitted. -/
def type0_bytes (vendor version date : List Nat) : List Nat :=
  [0, 24, 0, 0, strIdxV vendor, strIdxVer vendor version, 0x00, 0xE8,
   strIdxD vendor version date, 0,
   0x08, 0, 0, 0, 0, 0, 0, 0, 0, 4, 0, 0, 0xFF, 0xFF]
  ++ ((if 0 < vendor.length then vendor ++ [0] else [])
  ++ ((if 0 < version.length then version ++ [0] else [])
  ++ ((if 0 < date.length then date ++ [0] else [])
  ++ ([0] ++ (if strCntD vendor version date = 0 then [0] else [])))))

theorem getD_singleton (i : Nat) : ([0] : List Nat).getD i 0 = 0 := by
  cases i <;> simp [List.getD]

theorem type0_bytes_getD (v ver d : List Nat) (hv : 0 < v.length)
    (hver : 0 < ver.length) (hd : 0 < d.length) (k : Nat) :
    (type0_bytes v ver d).getD k 0 =
      if k < 24 then
        [0, 24, 0, 0, 1, 2, 0, 0xE8, 3, 0,
         0x08, 0, 0, 0, 0, 0, 0, 0, 0, 4, 0, 0, 0xFF, 0xFF].getD k 0
      else if k < 24 + (v.length + 1) then (v ++ [0]).getD (k - 24) 0
      else if k < 24 + (v.length + 1) + (ver.length + 1) then
        (ver ++ [0]).getD (k - (24 + (v.length + 1))) 0
      else if k < 24 + (v.length + 1) + (ver.length + 1) + (d.length + 1) then
        (d ++ [0]).getD (k - (24 + (v.length + 1) + (ver.length + 1))) 0
      else 0 := by
  have hv1 : (0 < v.length) = True := eq_true hv
  have hver1 : (0 < ver.length) = True := eq_true hver
  have hd1 : (0 < d.length) = True := eq_true hd
  have hiV : strIdxV v = 1 := by unfold strIdxV; rw [if_pos hv]
  have hiVer : strIdxVer v ver = 2 := by unfold strIdxVer; rw [if_pos hver, hiV]
  have hcVer : strCntVer v ver = 2 := by unfold strCntVer; rw [if_pos hver, hiV]
  have hiD : strIdxD v ver d = 3 := by unfold strIdxD; rw [if_pos hd, hcVer]
  have hcD : strCntD v ver d = 3 := by unfold strCntD; rw [if_pos hd, hcVer]
  have h30 : ((3 : Nat) = 0) = False := by simp
  simp only [type0_bytes, hiV, hiVer, hiD, hcD, hv1, hver1, hd1, if_true, h30,
    if_false, List.append_nil]
  by_cases h1 : k < 24
  · rw [List.getD_append _ _ _ _ (by simp; omega), if_pos h1]
  · rw [List.getD_append_right _ _ _ _ (by simp; omega), if_neg h1]
    simp only [List.length_cons, List.length_nil]
    by_cases h2 : k < 24 + (v.length + 1)
    · rw [if_pos h2, List.getD_append _ _ _ _ (by simp; omega)]
    · rw [if_neg h2, List.getD_append_right _ _ _ _ (by simp; omega)]
      simp only [List.length_append, List.length_cons, List.length_nil]
      have ha1 : k - 24 - (v.length + (0 + 1)) = k - (24 + (v.length + 1)) := by omega
      rw [ha1]
      by_cases h3 : k < 24 + (v.length + 1) + (ver.length + 1)
      · rw [if_pos h3, List.getD_append _ _ _ _ (by simp; omega)]
      · rw [if_neg h3, List.getD_append_right _ _ _ _ (by simp; omega)]
        simp only [List.length_append, List.length_cons, List.length_nil]
        have ha2 : k - (24 + (v.length + 1)) - (ver.length + (0 + 1)) =
            k - (24 + (v.length + 1) + (ver.length + 1)) := by omega
        rw [ha2]
        by_cases h4 : k < 24 + (v.length + 1) + (ver.length + 1) + (d.length + 1)
        · rw [if_pos h4, List.getD_append _ _ _ _ (by simp; omega)]
        · rw [if_neg h4, List.getD_append_right _ _ _ _ (by simp; omega)]
          rw [getD_singleton]

theorem wr8_hit (m : Nat → Nat) (a v x : Nat) (h : x = a) : wr8 m a v x = v % 256 := by
  simp [wr8, h]

theorem wr8_miss (m : Nat → Nat) (a v x : Nat) (h : x ≠ a) : wr8 m a v x = m x := by
  simp [wr8, h]

theorem wrStr_in (m : Nat → Nat) (a x : Nat) (l : List Nat) (h1 : a ≤ x)
    (h2 : x < a + (l.length + 1)) :
    wrBytes m a (l ++ [0]) x = (l ++ [0]).getD (x - a) 0 % 256 := by
  rw [wrBytes_apply, if_pos (by simp; omega)]

theorem wrStr_out (m : Nat → Nat) (a x : Nat) (l : List Nat)
    (h : x < a ∨ a + (l.length + 1) ≤ x) : wrBytes m a (l ++ [0]) x = m x := by
  rw [wrBytes_apply, if_neg (by simp; omega)]

theorem wrZeros_out (m : Nat → Nat) (a x : Nat) (h : x < a ∨ a + 8 ≤ x) :
    wrBytes m a [0, 0, 0, 0, 0, 0, 0, 0] x = m x := by
  rw [wrBytes_apply, if_neg (by simp; omega)]

theorem wrZeros_in (m : Nat → Nat) (a x : Nat) (h1 : a ≤ x) (h2 : x < a + 8) :
    wrBytes m a [0, 0, 0, 0, 0, 0, 0, 0] x = 0 := by
  rw [wrBytes_apply, if_pos (by simp; omega)]
  have hz : ∀ i, i < 8 → ([0, 0, 0, 0, 0, 0, 0, 0] : List Nat).getD i 0 = 0 := by decide
  rw [hz (x - a) (by omega)]

set_option maxHeartbeats 1000000 in
theorem smbios_new_type_0_spec (m : Nat → Nat) (start : Nat) (v ver d : List Nat)
    (hv : 0 < v.length) (hver : 0 < ver.length) (hd : 0 < d.length) :
    (smbios_new_type_0 m start v ver d).2 =
      start + (v.length + ver.length + d.length + 28)
    ∧ ∀ x, (smbios_new_type_0 m start v ver d).1 x =
        if start ≤ x ∧ x < start + (v.length + ver.length + d.length + 28)
        then (type0_bytes v ver d).getD (x - start) 0 % 256
        else m x := by
  have hv1 : (1 < v.length + 1) = True := eq_true (by omega)
  have hver1 : (1 < ver.length + 1) = True := eq_true (by omega)
  have hd1 : (1 < d.length + 1) = True := eq_true (by omega)
  have h30 : ((1 + 1 + 1 : Nat) = 0) = False := by simp
  constructor
  · simp only [smbios_new_type_0, hv1, hver1, hd1, if_true, h30, if_false]
    omega
  · intro x
    simp only [smbios_new_type_0, hv1, hver1, hd1, if_true, h30, if_false]
    by_cases hin : start ≤ x ∧ x < start + (v.length + ver.length + d.length + 28)
    · rw [if_pos hin, type0_bytes_getD v ver d hv hver hd (x - start)]
      by_cases h1 : x - start < 24
      · rw [if_pos h1]
        obtain ⟨k, hk, rfl⟩ : ∃ k, k < 24 ∧ x = start + k :=
          ⟨x - start, by omega, by omega⟩
        have hks : start + k - start = k := by omega
        rw [hks]
        interval_cases k <;>
          (simp (disch := omega) only [wr16, wr8_miss, wr8_hit, wrStr_out, wrStr_in,
            wrZeros_out, wrZeros_in]
           decide)
      · rw [if_neg h1]
        by_cases h2 : x - start < 24 + (v.length + 1)
        · rw [if_pos h2, show x - start - 24 = x - (start + 24) from by omega]
          simp (disch := omega) only [wr16, wr8_miss, wr8_hit, wrStr_out, wrStr_in,
            wrZeros_out, wrZeros_in]
        · rw [if_neg h2]
          by_cases h3 : x - start < 24 + (v.length + 1) + (ver.length + 1)
          · rw [if_pos h3, show x - start - (24 + (v.length + 1)) =
              x - (start + 24 + (v.length + 1)) from by omega]
            simp (disch := omega) only [wr16, wr8_miss, wr8_hit, wrStr_out, wrStr_in,
              wrZeros_out, wrZeros_in]
          · rw [if_neg h3]
            by_cases h4 : x - start < 24 + (v.length + 1) + (ver.length + 1)
                + (d.length + 1)
            · rw [if_pos h4, show x - start - (24 + (v.length + 1) + (ver.length + 1)) =
                x - (start + 24 + (v.length + 1) + (ver.length + 1)) from by omega]
              simp (disch := omega) only [wr16, wr8_miss, wr8_hit, wrStr_out, wrStr_in,
                wrZeros_out, wrZeros_in]
            · rw [if_neg h4]
              simp (disch := omega) only [wr16, wr8_miss, wr8_hit, wrStr_out, wrStr_in,
                wrZeros_out, wrZeros_in]
    · rw [if_neg hin]
      simp (disch := omega) only [wr16, wr8_miss, wr8_hit, wrStr_out, wrStr_in,
        wrZeros_out, wrZeros_in]

theorem readBytes_split (m : Nat → Nat) (a n k : Nat) :
    readBytes m a (n + k) = readBytes m a n ++ readBytes m (a + n) k := by
  unfold readBytes
  rw [List.range_add, List.map_append, List.map_map]
  have hf : ((fun i => rd8 m (a + i)) ∘ fun x => n + x) =
      (fun i => rd8 m (a + n + i)) := by
    funext i
    show rd8 m (a + (n + i)) = rd8 m (a + n + i)
    rw [Nat.add_assoc]
  rw [hf]

theorem readBytes_eq_list (m : Nat → Nat) (a : Nat) (l : List Nat)
    (h : ∀ i, i < l.length → rd8 m (a + i) = l.getD i 0) :
    readBytes m a l.length = l := by
  unfold readBytes
  apply List.ext_getElem (by simp)
  intro i h1 h2
  simp only [List.getElem_map, List.getElem_range]
  rw [h i h2, List.getD_eq_getElem l 0 h2]

theorem strblock_getD_lt (l : List Nat) (hl : ∀ b ∈ l, b < 256) (j : Nat) :
    (l ++ [0]).getD j 0 < 256 := by
  by_cases hj : j < l.length
  · rw [List.getD_append _ _ _ _ hj, List.getD_eq_getElem l 0 hj]
    exact hl _ (List.getElem_mem hj)
  · rw [List.getD_append_right _ _ _ _ (by omega), getD_singleton]
    omega

theorem type0_bytes_getD_lt (v ver d : List Nat) (hv : 0 < v.length)
    (hver : 0 < ver.length) (hd : 0 < d.length)
    (hvb : ∀ b ∈ v, b < 256) (hverb : ∀ b ∈ ver, b < 256)
    (hdb : ∀ b ∈ d, b < 256) (k : Nat) :
    (type0_bytes v ver d).getD k 0 < 256 := by
  rw [type0_bytes_getD v ver d hv hver hd k]
  have hhdr : ∀ j, j < 24 → ([0, 24, 0, 0, 1, 2, 0, 0xE8, 3, 0,
      0x08, 0, 0, 0, 0, 0, 0, 0, 0, 4, 0, 0, 0xFF, 0xFF] : List Nat).getD j 0 < 256 := by
    decide
  split_ifs with h1 h2 h3 h4
  · exact hhdr k h1
  · exact strblock_getD_lt v hvb _
  · exact strblock_getD_lt ver hverb _
  · exact strblock_getD_lt d hdb _
  · omega

theorem type0_bytes_length (v ver d : List Nat) (hv : 0 < v.length)
    (hver : 0 < ver.length) (hd : 0 < d.length) :
    (type0_bytes v ver d).length = v.length + ver.length + d.length + 28 := by
  have hv1 : (0 < v.length) = True := eq_true hv
  have hver1 : (0 < ver.length) = True := eq_true hver
  have hd1 : (0 < d.length) = True := eq_true hd
  have hcD : strCntD v ver d = 3 := by
    unfold strCntD strCntVer strIdxV
    rw [if_pos hd, if_pos hver, if_pos hv]
  have h30 : ((3 : Nat) = 0) = False := by simp
  simp only [type0_bytes, hv1, hver1, hd1, if_true, hcD, h30, if_false,
    List.append_nil, List.length_append, List.length_cons, List.length_nil]
  omega

set_option maxHeartbeats 1000000 in
/-- C6: for a supplied blob in which the builder's own scan finds no type-0
structure (`findT0 = false`), with both allocations succeeding and the final
buffer disjoint from the scratch buffer: when the growth fits 0xFFFF, the
built blob reads back as exactly one synthesized type-0 record (literal
vendor `"DellBIOS"`, the build's version string, literal date `"05/05/2022"`)
followed by the supplied blob's bytes unchanged, and the declared length
grows by exactly the record size `24 + |vendor| + |version| + |date| + 4`
(header + three strings + their NULs + trailing sentinel), with
`max_structure_size` / `number_of_structures` updated; when the growth would
exceed 0xFFFF, synthesis is skipped and the supplied blob is used as-is with
the length unchanged.  The record's string indices are 1/2/3 at offsets
4/5/8, and an index is 0 when its string is empty. -/
theorem smbios_build_tables_no_type0 (m : Nat → Nat) (blob version : List Nat)
    (maxs nstr : Option Nat) (qa ta : Nat)
    (hq : qa ≠ 0) (hta : ta ≠ 0)
    (hnoT0 : findT0 (wrBytes m qa blob) qa blob.length (blob.length + 1) none = false)
    (hver : 0 < version.length)
    (hblen : blob.length ≤ 0xFFFF)
    (hbb : ∀ b ∈ blob, b < 256)
    (hvb : ∀ b ∈ version, b < 256)
    (hdisj : qa + blob.length ≤ ta ∨
      ta + (24 + BIOS_NAME.length + version.length + BIOS_DATE.length + 4)
        + blob.length ≤ qa) :
    (blob.length + (24 + BIOS_NAME.length + version.length + BIOS_DATE.length + 4)
        ≤ 0xFFFF →
      (smbios_build_tables m blob version blob.length maxs nstr qa ta).map
          (fun r => (readBytes r.1 r.2.1
            ((24 + BIOS_NAME.length + version.length + BIOS_DATE.length + 4)
              + blob.length),
            r.2.1, r.2.2.1, r.2.2.2.1, r.2.2.2.2)) =
        some (type0_bytes BIOS_NAME version BIOS_DATE ++ blob, ta,
          blob.length + (24 + BIOS_NAME.length + version.length + BIOS_DATE.length + 4),
          maxs.map (fun mx =>
            if mx < 24 + BIOS_NAME.length + version.length + BIOS_DATE.length + 4
            then 24 + BIOS_NAME.length + version.length + BIOS_DATE.length + 4 else mx),
          nstr.map (fun n => (n + 1) % 2 ^ 16)))
    ∧ (0xFFFF < blob.length +
          (24 + BIOS_NAME.length + version.length + BIOS_DATE.length + 4) →
      (smbios_build_tables m blob version blob.length maxs nstr qa ta).map
          (fun r => (readBytes r.1 r.2.1 blob.length, r.2.2.1)) =
        some (blob, blob.length))
    ∧ (type0_bytes BIOS_NAME version BIOS_DATE).length =
        24 + BIOS_NAME.length + version.length + BIOS_DATE.length + 4
    ∧ (type0_bytes BIOS_NAME version BIOS_DATE).getD 0 0 = 0
    ∧ (type0_bytes BIOS_NAME version BIOS_DATE).getD 4 0 = 1
    ∧ (type0_bytes BIOS_NAME version BIOS_DATE).getD 5 0 = 2
    ∧ (type0_bytes BIOS_NAME version BIOS_DATE).getD 8 0 = 3
    ∧ (type0_bytes BIOS_NAME [] BIOS_DATE).getD 5 0 = 0 := by
  have h8 : BIOS_NAME.length = 8 := rfl
  have h10 : BIOS_DATE.length = 10 := rfl
  have hBN : 0 < BIOS_NAME.length := by omega
  have hBD : 0 < BIOS_DATE.length := by omega
  have hBNb : ∀ b ∈ BIOS_NAME, b < 256 := by decide
  have hBDb : ∀ b ∈ BIOS_DATE, b < 256 := by decide
  have hsub : sub32 0xFFFF blob.length = 0xFFFF - blob.length := by
    unfold sub32
    omega
  have hlen0 := type0_bytes_length BIOS_NAME version BIOS_DATE hBN hver hBD
  obtain ⟨hend, hmem⟩ :=
    smbios_new_type_0_spec (wrBytes m qa blob) ta BIOS_NAME version BIOS_DATE hBN hver hBD
  have hq0 : (qa = 0) = False := eq_false hq
  have hta0 : (ta = 0) = False := eq_false hta
  refine ⟨fun hle => ?_, fun hgt => ?_, by omega,
    by rw [type0_bytes_getD BIOS_NAME version BIOS_DATE hBN hver hBD 0,
         if_pos (by omega)]; decide,
    by rw [type0_bytes_getD BIOS_NAME version BIOS_DATE hBN hver hBD 4,
         if_pos (by omega)]; decide,
    by rw [type0_bytes_getD BIOS_NAME version BIOS_DATE hBN hver hBD 5,
         if_pos (by omega)]; decide,
    by rw [type0_bytes_getD BIOS_NAME version BIOS_DATE hBN hver hBD 8,
         if_pos (by omega)]; decide,
    by decide⟩
  · -- growth case
    have hc : (24 + BIOS_NAME.length + version.length + BIOS_DATE.length + 4 >
        sub32 0xFFFF blob.length) = False := by
      rw [hsub]
      exact eq_false (by omega)
    have hrun : smbios_build_tables m blob version blob.length maxs nstr qa ta =
        some (memcpyM
          (smbios_new_type_0 (wrBytes m qa blob) ta BIOS_NAME version BIOS_DATE).1
          (ta + (BIOS_NAME.length + version.length + BIOS_DATE.length + 28))
          qa blob.length, ta,
          blob.length + (24 + BIOS_NAME.length + version.length + BIOS_DATE.length + 4),
          maxs.map (fun mx =>
            if mx < 24 + BIOS_NAME.length + version.length + BIOS_DATE.length + 4
            then 24 + BIOS_NAME.length + version.length + BIOS_DATE.length + 4 else mx),
          nstr.map (fun n => (n + 1) % 2 ^ 16)) := by
      simp only [smbios_build_tables, hnoT0, Bool.not_false, eq_self_iff_true, not_true,
        if_true, if_false, hq0, hta0, hc]
      rw [hend, if_neg (by omega)]
    have hrecords : readBytes
        (memcpyM (smbios_new_type_0 (wrBytes m qa blob) ta BIOS_NAME version BIOS_DATE).1
          (ta + (BIOS_NAME.length + version.length + BIOS_DATE.length + 28))
          qa blob.length) ta
        ((24 + BIOS_NAME.length + version.length + BIOS_DATE.length + 4) + blob.length) =
        type0_bytes BIOS_NAME version BIOS_DATE ++ blob := by
      rw [readBytes_split]
      congr 1
      · -- the synthesized record
        rw [show (24 + BIOS_NAME.length + version.length + BIOS_DATE.length + 4) =
          (type0_bytes BIOS_NAME version BIOS_DATE).length from by omega]
        apply readBytes_eq_list
        intro i hi
        unfold rd8
        rw [memcpyM_lt _ _ _ _ _ (by omega), hmem (ta + i), if_pos (by omega),
          show ta + i - ta = i from by omega, Nat.mod_mod_of_dvd _ (by norm_num),
          Nat.mod_eq_of_lt (type0_bytes_getD_lt BIOS_NAME version BIOS_DATE hBN hver hBD
            hBNb hvb hBDb i)]
      · -- the supplied blob, unchanged
        rw [show ta + (24 + BIOS_NAME.length + version.length + BIOS_DATE.length + 4) =
          ta + (BIOS_NAME.length + version.length + BIOS_DATE.length + 28) from by omega]
        apply readBytes_eq_list
        intro j hj
        unfold rd8
        rw [memcpyM_apply _ _ _ _ _ (by omega), if_pos (by omega),
          show qa + (ta + (BIOS_NAME.length + version.length + BIOS_DATE.length + 28) + j
            - (ta + (BIOS_NAME.length + version.length + BIOS_DATE.length + 28))) = qa + j
            from by omega,
          hmem (qa + j), if_neg (by omega), wrBytes_apply, if_pos (by omega),
          show qa + j - qa = j from by omega]
        have hjb : blob.getD j 0 < 256 := by
          rw [List.getD_eq_getElem blob 0 hj]
          exact hbb _ (List.getElem_mem hj)
        omega
    rw [hrun, Option.map_some', hrecords]
  · -- skip case: synthesis would overflow 0xFFFF
    have hc : (24 + BIOS_NAME.length + version.length + BIOS_DATE.length + 4 >
        sub32 0xFFFF blob.length) = True := by
      rw [hsub]
      exact eq_true (by omega)
    have hrun : smbios_build_tables m blob version blob.length maxs nstr qa ta =
        some (memcpyM (wrBytes m qa blob) ta qa blob.length, ta,
          blob.length, maxs, nstr) := by
      simp only [smbios_build_tables, hnoT0, Bool.not_false, eq_self_iff_true, not_true,
        if_true, if_false, hq0, hta0, hc, Bool.false_eq_true]
      rw [if_neg (by omega)]
    have hblobread : readBytes (memcpyM (wrBytes m qa blob) ta qa blob.length) ta
        blob.length = blob := by
      apply readBytes_eq_list
      intro j hj
      unfold rd8
      rw [memcpyM_apply _ _ _ _ _ (by omega), if_pos (by omega),
        show qa + (ta + j - ta) = qa + j from by omega,
        wrBytes_apply, if_pos (by omega), show qa + j - qa = j from by omega]
      have hjb : blob.getD j 0 < 256 := by
        rw [List.getD_eq_getElem blob 0 hj]
        exact hbb _ (List.getElem_mem hj)
      omega
    rw [hrun, Option.map_some', hblobread]


theorem smbios_build_tables_no_type0_witness :
    (smbios_build_tables (fun _ => 0) [127, 4, 0, 0, 0, 0] [49]
        (List.length [127, 4, 0, 0, 0, 0]) (some 5) (some 2) 1000 2000).map
        (fun r => (readBytes r.1 r.2.1
          ((24 + BIOS_NAME.length + (List.length [49]) + BIOS_DATE.length + 4)
            + List.length [127, 4, 0, 0, 0, 0]),
          r.2.1, r.2.2.1, r.2.2.2.1, r.2.2.2.2)) =
      some (type0_bytes BIOS_NAME [49] BIOS_DATE ++ [127, 4, 0, 0, 0, 0], 2000,
        List.length [127, 4, 0, 0, 0, 0] +
          (24 + BIOS_NAME.length + (List.length [49]) + BIOS_DATE.length + 4),
        (some 5).map (fun mx =>
          if mx < 24 + BIOS_NAME.length + (List.length [49]) + BIOS_DATE.length + 4
          then 24 + BIOS_NAME.length + (List.length [49]) + BIOS_DATE.length + 4
          else mx),
        (some 2).map (fun n => (n + 1) % 2 ^ 16)) :=
  (smbios_build_tables_no_type0 (fun _ => 0) [127, 4, 0, 0, 0, 0] [49] (some 5) (some 2)
    1000 2000 (by decide) (by decide) (by decide) (by decide) (by decide) (by decide)
    (by decide) (by decide)).1 (by decide)

end BiosTables
